import Mathlib

/-!
Verification of the novellone lifecycle orchestrator and meta-analysis
graph engine (`src/backend/background_worker.py`, `src/backend/meta/`).

The Python sources are shallowly embedded: SQLAlchemy rows become plain
structures, timestamps become integers, floats become rationals, the
asynchronous collaborator calls (chapter generation, evaluation, cover
image generation, story spawning) become explicit oracle parameters, and
their observable side effects (awaited calls, sleeps, broadcasts) are
collected into explicit effect traces.  Strings are modelled with Lean
`String`; the character-class predicates of Python's regex module are
modelled at ASCII granularity, which the concrete inputs in this file
stay inside.
-/

namespace Novellone

/-- Python truthiness of an optional string: `None` and `""` are falsy.
Used for `story.cover_image_url` checks in `background_worker.py`. -/
def optStrFalsy : Option String → Bool
  | none => true
  | some s => s = ""

/-- Python `x or y` for an optional numeric field where `0` is falsy:
`chapter.tokens_used or words` in `corpus_builder._build_snapshot`. -/
def pyOrNat (x : Option Nat) (y : Nat) : Nat :=
  match x with
  | none => y
  | some n => if n = 0 then y else n

/-- Number of whitespace-separated tokens of a character list, i.e.
`len(text.split())` in Python (split with no arguments drops empty
tokens).  `inWord` records whether the previous character was part of a
token. -/
def splitCountAux : List Char → Bool → Nat
  | [], _ => 0
  | c :: rest, inWord =>
    if c.isWhitespace then splitCountAux rest false
    else (if inWord then 0 else 1) + splitCountAux rest true

/-- `len(text.split())` for a Lean string. -/
def splitCount (s : String) : Nat :=
  splitCountAux s.toList false

/-- `CorpusExtractionService._estimate_words` from
`src/backend/meta/corpus_builder.py`: returns `0` for empty text and
otherwise `max(1, math.ceil(len(text.split())))` (the `ceil` of a
nonnegative integer is itself). -/
def estimate_words (text : String) : Nat :=
  if text = "" then 0 else max 1 (splitCount text)

/-- A `Chapter` row as read by the corpus builder: `chapter_number`,
`content` and the recorded `tokens_used` (nullable). -/
structure Chapter where
  chapterNumber : Nat
  content : String
  tokensUsed : Option Nat
  deriving Repr, DecidableEq

/-- A `Story` row, restricted to the fields the orchestrator and the
meta-analysis pipeline read or write.  Timestamps are integers. -/
structure Story where
  id : Nat
  status : String
  chapterCount : Nat
  lastChapterAt : Option Int
  createdAt : Int
  completedAt : Option Int
  completionReason : Option String
  coverImageUrl : Option String
  totalTokens : Option Nat
  title : String
  premise : String
  deriving Repr, DecidableEq

/-- A per-chapter document of the corpus payload assembled by
`_build_snapshot` (`"chapter_number"`, `"content"`, `"word_count"`,
`"tokens_used"` keys of the JSON document). -/
structure ChapterDoc where
  chapterNumber : Nat
  content : String
  wordCount : Nat
  tokensUsed : Nat
  deriving Repr, DecidableEq

/-- The structured corpus payload (`data` column of `StoryCorpus`):
title, premise and the per-chapter documents. -/
structure CorpusData where
  title : String
  premise : String
  chapters : List ChapterDoc
  deriving Repr, DecidableEq

/-- A `StoryCorpus` row: cached snapshot with staleness watermarks. -/
structure StoryCorpus where
  storyId : Nat
  lastChapterNumber : Nat
  wordCount : Nat
  tokenCount : Nat
  updatedAt : Int
  data : CorpusData
  deriving Repr, DecidableEq

/-- `StoryCorpusSnapshot` mirrors the dataclass of the same name. -/
structure StoryCorpusSnapshot where
  storyId : Nat
  lastChapterNumber : Nat
  wordCount : Nat
  tokenCount : Nat
  updatedAt : Int
  data : CorpusData
  deriving Repr, DecidableEq

/-- `StoryCorpusSnapshot.from_model`: snapshot of a cached corpus row. -/
def snapshotFromModel (c : StoryCorpus) : StoryCorpusSnapshot :=
  { storyId := c.storyId
    lastChapterNumber := c.lastChapterNumber
    wordCount := c.wordCount
    tokenCount := c.tokenCount
    updatedAt := c.updatedAt
    data := c.data }

/-- `CorpusExtractionService._should_refresh`: rebuild when there is no
snapshot, the chapter watermark moved, the snapshot is older than the
last chapter, or the cached word count is zero.  A `datetime` is always
truthy in Python, so `story.last_chapter_at and ...` is `False` exactly
when `last_chapter_at` is `None`. -/
def should_refresh (story : Story) (corpus : Option StoryCorpus) : Bool :=
  match corpus with
  | none => true
  | some c =>
    if c.lastChapterNumber ≠ story.chapterCount then true
    else if (match story.lastChapterAt with
             | none => false
             | some t => c.updatedAt < t) then true
    else if c.wordCount = 0 then true
    else false

/-- One step of the chapter loop in `_build_snapshot`: accumulate word
and token totals and the per-chapter documents. -/
def buildSnapshotStep (acc : Nat × Nat × List ChapterDoc) (ch : Chapter) :
    Nat × Nat × List ChapterDoc :=
  let words := estimate_words ch.content
  let tokens := pyOrNat ch.tokensUsed words
  (acc.1 + words, acc.2.1 + tokens,
    acc.2.2 ++ [{ chapterNumber := ch.chapterNumber
                  content := ch.content
                  wordCount := words
                  tokensUsed := tokens }])

/-- `CorpusExtractionService._build_snapshot`: rebuild the snapshot from
the story's chapters (already ordered by chapter number; the optional
`max_chapters` cap is `None` in the worker's service). -/
def build_snapshot (story : Story) (chapters : List Chapter) (now : Int) :
    StoryCorpusSnapshot :=
  let acc := chapters.foldl buildSnapshotStep (0, 0, [])
  { storyId := story.id
    lastChapterNumber := story.chapterCount
    wordCount := acc.1
    tokenCount := acc.2.1
    updatedAt := now
    data := { title := story.title, premise := story.premise, chapters := acc.2.2 } }

/-- Unreachable fallback of `refresh_one` (when `should_refresh` is
false the cached row is present); kept total. -/
def default_corpus (story : Story) (now : Int) : StoryCorpus :=
  { storyId := story.id
    lastChapterNumber := 0
    wordCount := 0
    tokenCount := 0
    updatedAt := now
    data := { title := story.title, premise := story.premise, chapters := [] } }

/-- The per-story body of `refresh_story_corpora`: refresh when stale
(upserting the corpus row), otherwise reuse the cached row unchanged.
Returns the stored row, the returned snapshot, and whether a rebuild
happened (the `refreshed_count` increment). -/
def refresh_one (story : Story) (existing : Option StoryCorpus)
    (chapters : List Chapter) (now : Int) :
    StoryCorpus × StoryCorpusSnapshot × Bool :=
  if should_refresh story existing then
    let snap := build_snapshot story chapters now
    ({ storyId := story.id
       lastChapterNumber := snap.lastChapterNumber
       wordCount := snap.wordCount
       tokenCount := snap.tokenCount
       updatedAt := snap.updatedAt
       data := snap.data }, snap, true)
  else
    match existing with
    | some c => (c, snapshotFromModel c, false)
    | none => (default_corpus story now, build_snapshot story chapters now, true)

/-- Per-chapter documents produced by the `_build_snapshot` fold carry
the word count estimated from their own content. -/
theorem buildSnapshot_fold_wordCount (chapters : List Chapter)
    (acc : Nat × Nat × List ChapterDoc)
    (h : ∀ d ∈ acc.2.2, d.wordCount = estimate_words d.content) :
    ∀ d ∈ (chapters.foldl buildSnapshotStep acc).2.2,
      d.wordCount = estimate_words d.content := by
  induction chapters generalizing acc with
  | nil => exact h
  | cons ch rest ih =>
    intro d hd
    refine ih (buildSnapshotStep acc ch) ?_ d hd
    intro d' hd'
    simp only [buildSnapshotStep, List.mem_append, List.mem_singleton] at hd'
    rcases hd' with hd' | hd'
    · exact h d' hd'
    · subst hd'
      rfl

/-- C9 (counterexample): `_estimate_words` returns `0` on an empty
chapter content, not `max(1, ceil(len("".split()))) = 1`; the claim that
the per-chapter estimate always equals `max(1, ceil(token count))` and
is never `0` fails at the empty string. -/
theorem c9_estimate_words_empty_counterexample :
    estimate_words "" = 0 ∧ estimate_words "" ≠ max 1 (splitCount "") := by
  constructor
  · rfl
  · decide

/-- C9 (amended): during a snapshot rebuild every per-chapter document's
word count is `_estimate_words` of its content, which equals
`max(1, len(content.split()))` and is positive for nonempty content, but
is `0` (not `1`) for a chapter whose content is the empty string. -/
theorem c9_estimate_words_amended (story : Story) (chapters : List Chapter)
    (now : Int) (d : ChapterDoc)
    (hd : d ∈ (build_snapshot story chapters now).data.chapters) :
    d.wordCount = estimate_words d.content ∧
      (d.content ≠ "" →
        d.wordCount = max 1 (splitCount d.content) ∧ 0 < d.wordCount) ∧
      (d.content = "" → d.wordCount = 0) := by
  have hw : d.wordCount = estimate_words d.content := by
    refine buildSnapshot_fold_wordCount chapters (0, 0, []) ?_ d hd
    intro d' hd'
    simp at hd'
  refine ⟨hw, ?_, ?_⟩
  · intro hne
    rw [hw, estimate_words, if_neg hne]
    exact ⟨rfl, Nat.lt_of_lt_of_le Nat.zero_lt_one (Nat.le_max_left _ _)⟩
  · intro he
    rw [hw, he]
    rfl

/-- A concrete story used by witness instantiations. -/
def witStory : Story :=
  { id := 1, status := "active", chapterCount := 2,
    lastChapterAt := none, createdAt := 0, completedAt := none,
    completionReason := none, coverImageUrl := none, totalTokens := none,
    title := "t", premise := "p" }

/-- Concrete chapters used by witness instantiations: one two-word
chapter and one empty chapter. -/
def witChapters : List Chapter :=
  [{ chapterNumber := 1, content := "two words", tokensUsed := none },
   { chapterNumber := 2, content := "", tokensUsed := none }]

/-- C9 (witness for the amended theorem): a two-chapter story whose
first chapter says "two words" and whose second chapter is empty. -/
theorem c9_estimate_words_amended_witness :
    ∃ d ∈ (build_snapshot witStory witChapters 5).data.chapters,
      d.wordCount = estimate_words d.content ∧ d.wordCount = 2 := by
  refine ⟨{ chapterNumber := 1, content := "two words", wordCount := 2,
            tokensUsed := 2 }, by decide, ?_, by decide⟩
  exact (c9_estimate_words_amended witStory witChapters 5 _ (by decide)).1

/-- C4: corpus refresh is idempotent.  When the cached snapshot's
chapter watermark equals the story's chapter count, the snapshot is not
older than the story's last chapter, and the cached word count is
nonzero, `refresh_story_corpora`'s per-story body performs no rebuild:
it returns the cached row's snapshot unchanged (identical word and token
counts) and does not increment the refreshed counter. -/
theorem c4_corpus_refresh_idempotent (story : Story) (c : StoryCorpus)
    (chapters : List Chapter) (now : Int)
    (hch : c.lastChapterNumber = story.chapterCount)
    (hts : ∀ t, story.lastChapterAt = some t → ¬ c.updatedAt < t)
    (hwc : c.wordCount ≠ 0) :
    refresh_one story (some c) chapters now = (c, snapshotFromModel c, false) ∧
      (refresh_one story (some c) chapters now).2.1.wordCount = c.wordCount ∧
      (refresh_one story (some c) chapters now).2.1.tokenCount = c.tokenCount := by
  have hsr : should_refresh story (some c) = false := by
    simp only [should_refresh, hch]
    rw [if_neg (by simp), if_neg, if_neg hwc]
    cases hlc : story.lastChapterAt with
    | none => simp
    | some t =>
      simp only [decide_eq_true_eq]
      exact hts t hlc
  rw [refresh_one, hsr]
  exact ⟨rfl, rfl, rfl⟩

/-- C4 (witness): a story with two chapters and an up-to-date cached
snapshot is reused unchanged. -/
theorem c4_corpus_refresh_idempotent_witness :
    refresh_one
      { id := 1, status := "active", chapterCount := 2,
        lastChapterAt := some 10, createdAt := 0, completedAt := none,
        completionReason := none, coverImageUrl := none, totalTokens := none,
        title := "t", premise := "p" }
      (some { storyId := 1, lastChapterNumber := 2, wordCount := 7,
              tokenCount := 9, updatedAt := 11,
              data := { title := "t", premise := "p", chapters := [] } })
      [] 20 =
      ({ storyId := 1, lastChapterNumber := 2, wordCount := 7,
         tokenCount := 9, updatedAt := 11,
         data := { title := "t", premise := "p", chapters := [] } },
       snapshotFromModel
         { storyId := 1, lastChapterNumber := 2, wordCount := 7,
           tokenCount := 9, updatedAt := 11,
           data := { title := "t", premise := "p", chapters := [] } },
       false) := by
  exact (c4_corpus_refresh_idempotent _ _ [] 20 (by decide)
    (by intro t ht; cases ht; decide) (by decide)).1

/-- Outcome of one awaited `generate_cover_image` call: either the call
raises, or it returns a URL string (possibly empty). -/
inductive CoverOutcome
  | raises
  | url (s : String)
  deriving Repr, DecidableEq

/-- Observable side effects of the backfill loop: an awaited cover call
(tagged with the attempt counter) and an `asyncio.sleep`. -/
inductive BackfillEffect
  | coverCall (storyId : Nat) (attempt : Nat)
  | sleep (q : ℚ)
  deriving Repr, DecidableEq

/-- Result of the per-story attempt loop of `_execute_cover_backfill`:
the (possibly updated) story row, whether `summary["generated"]` or
`summary["failed"]` was incremented, the final attempt counter and the
effect trace. -/
structure AttemptResult where
  story : Story
  generatedOne : Bool
  failedOne : Bool
  attempts : Nat
  effects : List BackfillEffect
  deriving Repr, DecidableEq

/-- The `while attempts < max_attempts` loop of
`_execute_cover_backfill`, for one story.  `gen a` is the outcome of the
cover call on attempt `a` (1-based).  On an exception before the last
attempt a backoff sleep of `pause * 2 ** (attempts - 1)` is inserted
(skipped when the backoff is zero) and the loop retries; an exception on
the last attempt marks the story failed; a nonempty URL stores it and
marks it generated; an empty URL marks the story failed immediately. -/
def coverGo (gen : Nat → CoverOutcome) (pause : ℚ) (story : Story)
    (maxAttempts : Nat) : Nat → Nat → AttemptResult
  | attempts, 0 =>
    { story := story, generatedOne := false, failedOne := false,
      attempts := attempts, effects := [] }
  | attempts, fuel + 1 =>
    if attempts < maxAttempts then
      let a := attempts + 1
      match gen a with
      | .raises =>
        if a < maxAttempts then
          let backoff := pause * 2 ^ (a - 1)
          let r := coverGo gen pause story maxAttempts a fuel
          { r with effects := BackfillEffect.coverCall story.id a ::
              ((if backoff ≠ 0 then [BackfillEffect.sleep backoff] else []) ++ r.effects) }
        else
          { story := story, generatedOne := false, failedOne := true,
            attempts := a, effects := [BackfillEffect.coverCall story.id a] }
      | .url u =>
        if u ≠ "" then
          { story := { story with coverImageUrl := some u },
            generatedOne := true, failedOne := false, attempts := a,
            effects := [BackfillEffect.coverCall story.id a] }
        else
          { story := story, generatedOne := false, failedOne := true,
            attempts := a, effects := [BackfillEffect.coverCall story.id a] }
    else
      { story := story, generatedOne := false, failedOne := false,
        attempts := attempts, effects := [] }

/-- Entry point of the attempt loop: the structural countdown is the
loop measure `maxAttempts - attempts`, so the countdown reaches `0`
exactly when the `while` guard goes false. -/
def coverAttemptLoop (gen : Nat → CoverOutcome) (pause : ℚ) (story : Story)
    (maxAttempts : Nat) (attempts : Nat) : AttemptResult :=
  coverGo gen pause story maxAttempts attempts (maxAttempts - attempts)

/-- The `for index, story in enumerate(stories, start=1)` loop of
`_execute_cover_backfill`: per story run the attempt loop, then insert
the inter-story throttle sleep when `pause` is nonzero and more stories
follow.  Returns (generated, failed, updated stories, per-story final
attempt counters, effect trace).  `gen index attempt` is the cover-call
oracle, `total` is `len(stories)`. -/
def backfillGo (gen : Nat → Nat → CoverOutcome) (pause : ℚ) (total : Nat) :
    List Story → Nat → Nat × Nat × List Story × List Nat × List BackfillEffect
  | [], _ => (0, 0, [], [], [])
  | story :: rest, index =>
    let r := coverAttemptLoop (gen index) pause story 3 0
    let interSleep := if pause ≠ 0 ∧ index < total
      then [BackfillEffect.sleep pause] else []
    let t := backfillGo gen pause total rest (index + 1)
    ((if r.generatedOne then 1 else 0) + t.1,
     (if r.failedOne then 1 else 0) + t.2.1,
     r.story :: t.2.2.1,
     r.attempts :: t.2.2.2.1,
     r.effects ++ interSleep ++ t.2.2.2.2)

/-- Summary counters of `_execute_cover_backfill`. -/
structure BackfillSummary where
  processed : Nat
  generated : Nat
  failed : Nat
  deriving Repr, DecidableEq

/-- `BackgroundWorker._execute_cover_backfill` on a nonempty selection
of completed cover-less stories: `pause = max(config_pause, 0.0)`,
`max_attempts = 3`, `processed = len(stories)` recorded before the
loop. -/
def executeCoverBackfill (gen : Nat → Nat → CoverOutcome) (configPause : ℚ)
    (stories : List Story) :
    BackfillSummary × List Story × List Nat × List BackfillEffect :=
  let pause := max configPause 0
  let t := backfillGo gen pause stories.length stories 1
  ({ processed := stories.length, generated := t.1, failed := t.2.1 },
   t.2.2.1, t.2.2.2.1, t.2.2.2.2)

/-- The attempt counter of the per-story loop never exceeds
`max_attempts`. -/
theorem coverGo_attempts_le (gen : Nat → CoverOutcome) (pause : ℚ)
    (story : Story) (maxA : Nat) :
    ∀ fuel attempts, attempts ≤ maxA →
      (coverGo gen pause story maxA attempts fuel).attempts ≤ maxA := by
  intro fuel
  induction fuel with
  | zero => intro attempts h; exact h
  | succ n ih =>
    intro attempts h
    rw [coverGo]
    by_cases hlt : attempts < maxA
    · rw [if_pos hlt]
      cases hg : gen (attempts + 1) with
      | raises =>
        simp only [hg]
        by_cases hlt2 : attempts + 1 < maxA
        · simpa [hlt2] using ih (attempts + 1) hlt
        · simp only [hlt2, if_false]
          exact hlt
      | url u =>
        simp only [hg]
        by_cases hu : u = "" <;> simp only [hu, ne_eq, not_true_eq_false,
          not_false_eq_true, if_true, if_false] <;> exact hlt
    · rw [if_neg hlt]
      exact h

/-- A nonempty URL on the first attempt stores the cover and stops
after one attempt. -/
theorem coverAttemptLoop_first_url (gen : Nat → CoverOutcome) (pause : ℚ)
    (story : Story) (u : String) (hu : u ≠ "")
    (hg : gen 1 = CoverOutcome.url u) :
    coverAttemptLoop gen pause story 3 0 =
      { story := { story with coverImageUrl := some u },
        generatedOne := true, failedOne := false, attempts := 1,
        effects := [BackfillEffect.coverCall story.id 1] } := by
  simp [coverAttemptLoop, coverGo, hg, hu]

/-- An empty URL on the first attempt records a failure immediately:
one attempt, no retry, story unchanged. -/
theorem coverAttemptLoop_first_empty (gen : Nat → CoverOutcome) (pause : ℚ)
    (story : Story) (hg : gen 1 = CoverOutcome.url "") :
    coverAttemptLoop gen pause story 3 0 =
      { story := story, generatedOne := false, failedOne := true,
        attempts := 1, effects := [BackfillEffect.coverCall story.id 1] } := by
  simp [coverAttemptLoop, coverGo, hg]

/-- A cover call raising on all three attempts fails the story after
exactly three attempts, with exponential backoff sleeps `pause` and
`pause * 2` between successive attempts. -/
theorem coverAttemptLoop_all_raises (gen : Nat → CoverOutcome) (pause : ℚ)
    (story : Story) (hp : pause ≠ 0) (hg : ∀ a, gen a = CoverOutcome.raises) :
    coverAttemptLoop gen pause story 3 0 =
      { story := story, generatedOne := false, failedOne := true,
        attempts := 3,
        effects := [BackfillEffect.coverCall story.id 1,
                    BackfillEffect.sleep pause,
                    BackfillEffect.coverCall story.id 2,
                    BackfillEffect.sleep (pause * 2),
                    BackfillEffect.coverCall story.id 3] } := by
  simp [coverAttemptLoop, coverGo, hg, hp, pow_succ]

/-- Every per-story attempt counter reported by the backfill loop is at
most 3. -/
theorem backfillGo_counts_le (gen : Nat → Nat → CoverOutcome) (pause : ℚ)
    (total : Nat) :
    ∀ stories index, ∀ n ∈ (backfillGo gen pause total stories index).2.2.2.1,
      n ≤ 3 := by
  intro stories
  induction stories with
  | nil => intro index n hn; simp [backfillGo] at hn
  | cons s rest ih =>
    intro index n hn
    simp only [backfillGo, List.mem_cons] at hn
    rcases hn with hn | hn
    · subst hn
      exact coverGo_attempts_le (gen index) pause s 3 3 0 (Nat.zero_le 3)
    · exact ih (index + 1) n hn

/-- The backfill loop reports one attempt counter per input story: a
failing story never aborts the rest of the batch. -/
theorem backfillGo_counts_length (gen : Nat → Nat → CoverOutcome) (pause : ℚ)
    (total : Nat) :
    ∀ stories index,
      (backfillGo gen pause total stories index).2.2.2.1.length = stories.length := by
  intro stories
  induction stories with
  | nil => intro index; rfl
  | cons s rest ih => intro index; simp [backfillGo, ih (index + 1)]

/-- C5: each story's cover call is attempted at most 3 times; on the
3-story batch where story 2's call raises on all attempts and stories 1
and 3 return nonempty URLs, the summary reports `processed=3,
generated=2, failed=1`, the per-story attempt counters are `[1, 3, 1]`,
and the effect trace interleaves the exponential backoff sleeps
(`pause`, then `pause * 2`) between story 2's successive attempts with
the inter-story throttle sleeps. -/
theorem c5_cover_backfill_retry (gen : Nat → Nat → CoverOutcome) :
    (∀ (configPause : ℚ) (stories : List Story),
      ∀ n ∈ (executeCoverBackfill gen configPause stories).2.2.1, n ≤ 3) ∧
    (∀ (s1 s2 s3 : Story) (u1 u3 : String) (p : ℚ),
      u1 ≠ "" → u3 ≠ "" → 0 < p →
      gen 1 1 = CoverOutcome.url u1 →
      (∀ a, gen 2 a = CoverOutcome.raises) →
      gen 3 1 = CoverOutcome.url u3 →
      (executeCoverBackfill gen p [s1, s2, s3]).1 =
        { processed := 3, generated := 2, failed := 1 } ∧
      (executeCoverBackfill gen p [s1, s2, s3]).2.2.1 = [1, 3, 1] ∧
      (executeCoverBackfill gen p [s1, s2, s3]).2.2.2 =
        [BackfillEffect.coverCall s1.id 1, BackfillEffect.sleep p,
         BackfillEffect.coverCall s2.id 1, BackfillEffect.sleep p,
         BackfillEffect.coverCall s2.id 2, BackfillEffect.sleep (p * 2),
         BackfillEffect.coverCall s2.id 3, BackfillEffect.sleep p,
         BackfillEffect.coverCall s3.id 1]) := by
  constructor
  · intro configPause stories n hn
    exact backfillGo_counts_le gen _ _ stories 1 n hn
  · intro s1 s2 s3 u1 u3 p hu1 hu3 hp h1 h2 h3
    have hpmax : max p 0 = p := max_eq_left hp.le
    have hpne : p ≠ 0 := ne_of_gt hp
    have e1 := coverAttemptLoop_first_url (gen 1) p s1 u1 hu1 h1
    have e2 := coverAttemptLoop_all_raises (gen 2) p s2 hpne h2
    have e3 := coverAttemptLoop_first_url (gen 3) p s3 u3 hu3 h3
    refine ⟨?_, ?_, ?_⟩ <;>
      simp [executeCoverBackfill, hpmax, backfillGo, e1, e2, e3, hpne]

/-- A story sharing `witStory`'s fields with a chosen id. -/
def mkStory (n : Nat) : Story :=
  { witStory with id := n }

/-- A concrete backfill oracle: story 2 always raises, stories 1 and 3
return the URLs "a" and "b". -/
def witGen : Nat → Nat → CoverOutcome :=
  fun i _ => if i = 2 then CoverOutcome.raises
    else if i = 1 then CoverOutcome.url "a" else CoverOutcome.url "b"

/-- C5 (witness): the scenario instantiated with stories 1, 2, 3. -/
theorem c5_cover_backfill_retry_witness :
    (executeCoverBackfill witGen 1 [mkStory 1, mkStory 2, mkStory 3]).1 =
      { processed := 3, generated := 2, failed := 1 } ∧
    (executeCoverBackfill witGen 1 [mkStory 1, mkStory 2, mkStory 3]).2.2.1 =
      [1, 3, 1] := by
  have h := (c5_cover_backfill_retry witGen).2 (mkStory 1) (mkStory 2) (mkStory 3)
    "a" "b" 1 (by decide) (by decide) (by norm_num)
    (by decide) (fun a => rfl) (by decide)
  exact ⟨h.1, h.2.1⟩

/-- C7 (counterexample): a cover call that returns the empty string is
not retried.  On the first attempt returning `""` the story is recorded
as failed immediately: the attempt counter stays at 1 (the claim's
"retried up to the 3-attempt limit" would require a second attempt). -/
theorem c7_empty_url_counterexample :
    (coverAttemptLoop (fun _ => CoverOutcome.url "") 1 witStory 3 0).failedOne = true ∧
    (coverAttemptLoop (fun _ => CoverOutcome.url "") 1 witStory 3 0).attempts = 1 ∧
    ¬ 2 ≤ (coverAttemptLoop (fun _ => CoverOutcome.url "") 1 witStory 3 0).attempts := by
  refine ⟨?_, ?_, ?_⟩ <;> decide

/-- C7 (amended): an empty-string cover result is a non-retryable
failure: the story is recorded as failed after that single attempt with
no further calls and no story mutation, and the batch still processes
every story in the selection (one attempt counter per story). -/
theorem c7_empty_url_fails_immediately (gen : Nat → CoverOutcome) (pause : ℚ)
    (story : Story) (hg : gen 1 = CoverOutcome.url "") :
    coverAttemptLoop gen pause story 3 0 =
      { story := story, generatedOne := false, failedOne := true,
        attempts := 1, effects := [BackfillEffect.coverCall story.id 1] } ∧
    (∀ (gen2 : Nat → Nat → CoverOutcome) (configPause : ℚ) (stories : List Story),
      (executeCoverBackfill gen2 configPause stories).1.processed = stories.length ∧
      (executeCoverBackfill gen2 configPause stories).2.2.1.length = stories.length) := by
  refine ⟨coverAttemptLoop_first_empty gen pause story hg, ?_⟩
  intro gen2 configPause stories
  exact ⟨rfl, backfillGo_counts_length gen2 _ _ stories 1⟩

/-- C7 (witness for the amended theorem). -/
theorem c7_empty_url_fails_immediately_witness :
    coverAttemptLoop (fun _ => CoverOutcome.url "") 1 witStory 3 0 =
      { story := witStory, generatedOne := false, failedOne := true,
        attempts := 1, effects := [BackfillEffect.coverCall witStory.id 1] } := by
  exact (c7_empty_url_fails_immediately (fun _ => CoverOutcome.url "") 1 witStory
    (by decide)).1

/-- Python `x or default` for an optional string where `""` is falsy:
`evaluation.reasoning or "Quality threshold not met"`. -/
def pyOrStr (x : Option String) (d : String) : String :=
  match x with
  | none => d
  | some s => if s = "" then d else s

/-- Runtime configuration fields consumed by the tick cycle. -/
structure RuntimeConfig where
  maxChaptersPerStory : Nat
  chapterIntervalSeconds : Int
  evaluationIntervalChapters : Nat
  qualityScoreMin : ℚ
  minActiveStories : Nat
  maxActiveStories : Nat
  deriving Repr, DecidableEq

/-- Process-level settings consumed by the worker. -/
structure WorkerSettings where
  minChaptersBeforeEval : Nat
  enableWebsocket : Bool
  deriving Repr, DecidableEq

/-- Payload of one `generate_chapter` collaborator call. -/
structure ChapterData where
  content : String
  tokensUsed : Option Nat
  deriving Repr, DecidableEq

/-- Outcome of one awaited `generate_chapter` call. -/
inductive GenOutcome
  | raises
  | ok (data : ChapterData)
  deriving Repr, DecidableEq

/-- Outcome of one awaited `evaluate_story` call: overall score, the
`should_continue` verdict and optional reasoning text. -/
inductive EvalOutcome
  | raises
  | ok (overall : ℚ) (shouldContinue : Bool) (reasoning : Option String)
  deriving Repr, DecidableEq

/-- Observable effects of the tick cycle: awaited collaborator calls
and websocket broadcasts. -/
inductive WorkerEffect
  | genChapterCall (storyId : Nat) (chapterNumber : Nat)
  | evalCall (storyId : Nat)
  | coverCall (storyId : Nat)
  | broadcast (event : String) (storyId : Nat)
  | spawnCall (index : Nat)
  deriving Repr, DecidableEq

/-- `BackgroundWorker._complete_story`: idempotent completion.  If the
story is not yet completed, set status/completed_at/completion_reason,
mark it dirty for meta-analysis, generate a cover image when none is
present (exceptions logged, empty URL discarded), and broadcast.  The
returned flag records whether the story was added to the dirty set. -/
def completeStory (settings : WorkerSettings) (cover : CoverOutcome)
    (now : Int) (story : Story) (reason : String) :
    Story × List WorkerEffect × Bool :=
  if story.status ≠ "completed" then
    let story1 : Story :=
      { story with
        status := "completed"
        completedAt := some now
        completionReason := some reason }
    let step2 : Story × List WorkerEffect :=
      if optStrFalsy story1.coverImageUrl then
        match cover with
        | .raises => (story1, [WorkerEffect.coverCall story1.id])
        | .url u =>
          if u ≠ "" then
            ({ story1 with coverImageUrl := some u },
             [WorkerEffect.coverCall story1.id])
          else (story1, [WorkerEffect.coverCall story1.id])
      else (story1, [])
    let bEffs := if settings.enableWebsocket
      then [WorkerEffect.broadcast "story_completed" story.id] else []
    (step2.1, step2.2 ++ bEffs, true)
  else (story, [], false)

/-- `BackgroundWorker._create_chapter`: await the generation
collaborator (a raise propagates before any mutation), then bump
`chapter_count`, stamp `last_chapter_at`, accumulate `total_tokens`
(with Python `or`-falsiness on both operands), mark the story dirty and
broadcast.  Returns the effect trace, and `none` on a raise. -/
def createChapter (settings : WorkerSettings) (gen : GenOutcome) (now : Int)
    (story : Story) : List WorkerEffect × Option (Story × Bool) :=
  let callEff := [WorkerEffect.genChapterCall story.id (story.chapterCount + 1)]
  match gen with
  | .raises => (callEff, none)
  | .ok data =>
    let tokens := pyOrNat data.tokensUsed 0
    let story1 : Story :=
      { story with
        chapterCount := story.chapterCount + 1
        lastChapterAt := some now
        totalTokens := some (pyOrNat story.totalTokens 0 + tokens) }
    let bEffs := if settings.enableWebsocket
      then [WorkerEffect.broadcast "new_chapter" story.id] else []
    (callEff ++ bEffs, some (story1, true))

/-- `BackgroundWorker._evaluate_story`: await the evaluation
collaborator (a raise propagates), record the evaluation, and complete
the story when `should_continue` is false or the overall score is below
the quality threshold (reason = reasoning or the default). -/
def evaluateStory (cfg : RuntimeConfig) (settings : WorkerSettings)
    (ev : EvalOutcome) (cover : CoverOutcome) (now : Int) (story : Story) :
    List WorkerEffect × Option (Story × Bool) :=
  let callEff := [WorkerEffect.evalCall story.id]
  match ev with
  | .raises => (callEff, none)
  | .ok overall shouldContinue reasoning =>
    if ¬ shouldContinue ∨ overall < cfg.qualityScoreMin then
      let reason := pyOrStr reasoning "Quality threshold not met"
      let c := completeStory settings cover now story reason
      (callEff ++ c.2.1, some (c.1, c.2.2))
    else (callEff, some (story, false))

/-- Result of processing one story within a tick: the (possibly
partially) updated story row, the effect trace, the ids added to the
dirty set, and whether an exception propagated out of the story's
advancement. -/
structure StepResult where
  story : Story
  effects : List WorkerEffect
  dirty : List Nat
  raised : Bool
  deriving Repr, DecidableEq

/-- `BackgroundWorker._process_story`: skip non-active stories,
complete at the chapter cap before generating, otherwise generate a
chapter when the interval elapsed, then trigger an evaluation at
evaluation checkpoints.  There is no per-story exception handler: a
raise from the generation or evaluation collaborator propagates out. -/
def processStory (cfg : RuntimeConfig) (settings : WorkerSettings) (now : Int)
    (gen : GenOutcome) (ev : EvalOutcome) (cover : CoverOutcome)
    (story : Story) : StepResult :=
  if story.status ≠ "active" then
    { story := story, effects := [], dirty := [], raised := false }
  else if cfg.maxChaptersPerStory ≤ story.chapterCount then
    let c := completeStory settings cover now story "Reached max chapters"
    { story := c.1, effects := c.2.1,
      dirty := if c.2.2 then [c.1.id] else [], raised := false }
  else
    let lastChapter := story.lastChapterAt.getD story.createdAt
    let elapsed := now - lastChapter
    let chStep : List WorkerEffect × Option (Story × Bool) :=
      if cfg.chapterIntervalSeconds ≤ elapsed then
        createChapter settings gen now story
      else ([], some (story, false))
    match chStep.2 with
    | none => { story := story, effects := chStep.1, dirty := [], raised := true }
    | some (story1, dirty1) =>
      let dirtyList := if dirty1 then [story1.id] else []
      if settings.minChaptersBeforeEval ≤ story1.chapterCount ∧
          story1.chapterCount % cfg.evaluationIntervalChapters = 0 then
        let evStep := evaluateStory cfg settings ev cover now story1
        match evStep.2 with
        | none =>
          { story := story1, effects := chStep.1 ++ evStep.1,
            dirty := dirtyList, raised := true }
        | some (story2, dirty2) =>
          { story := story2, effects := chStep.1 ++ evStep.1,
            dirty := dirtyList ++ (if dirty2 then [story2.id] else []),
            raised := false }
      else
        { story := story1, effects := chStep.1, dirty := dirtyList,
          raised := false }

/-- The per-story loop of `BackgroundWorker._run_cycle`: stories are
advanced strictly sequentially and a raise aborts the loop (the cycle
has no per-story handler; the exception is caught only at the tick
boundary).  Returns the processed story rows, the effect trace, the
dirty ids and whether the cycle raised. -/
def runCycleLoop (cfg : RuntimeConfig) (settings : WorkerSettings) (now : Int)
    (gen : Nat → GenOutcome) (ev : Nat → EvalOutcome)
    (cover : Nat → CoverOutcome) :
    List Story → List Story × List WorkerEffect × List Nat × Bool
  | [] => ([], [], [], false)
  | story :: rest =>
    let r := processStory cfg settings now (gen story.id) (ev story.id)
      (cover story.id) story
    if r.raised then ([r.story], r.effects, r.dirty, true)
    else
      let t := runCycleLoop cfg settings now gen ev cover rest
      (r.story :: t.1, r.effects ++ t.2.1, r.dirty ++ t.2.2.1, t.2.2.2)

/-- Stable insertion of `x` into `l` before the first element `y` with
`le x y`. -/
def insertSorted (le : α → α → Bool) (x : α) : List α → List α
  | [] => [x]
  | y :: ys => if le x y then x :: y :: ys else y :: insertSorted le x ys

/-- A stable sort (insertion sort).  Python's `sorted` and the
database's `ORDER BY` are modelled by this function; any stable sort
agrees with them on a total preorder key. -/
def pySorted (le : α → α → Bool) : List α → List α
  | [] => []
  | x :: xs => insertSorted le x (pySorted le xs)

/-- `insertSorted` is a permutation of consing. -/
theorem insertSorted_perm (le : α → α → Bool) (x : α) :
    ∀ l : List α, (insertSorted le x l).Perm (x :: l) := by
  intro l
  induction l with
  | nil => exact List.Perm.refl _
  | cons y ys ih =>
    rw [insertSorted]
    by_cases h : le x y
    · rw [if_pos h]
    · rw [if_neg h]
      exact (ih.cons y).trans (List.Perm.swap x y ys)

/-- `pySorted` permutes its input. -/
theorem pySorted_perm (le : α → α → Bool) :
    ∀ l : List α, (pySorted le l).Perm l := by
  intro l
  induction l with
  | nil => exact List.Perm.refl _
  | cons x xs ih =>
    exact (insertSorted_perm le x (pySorted le xs)).trans (ih.cons x)

/-- Membership is preserved by `pySorted`. -/
theorem pySorted_mem (le : α → α → Bool) (l : List α) (x : α) :
    x ∈ pySorted le l ↔ x ∈ l :=
  (pySorted_perm le l).mem_iff

/-- Payload of one `spawn_new_story` collaborator call (the fields the
status machine observes). -/
structure SpawnPayload where
  title : String
  premise : String
  deriving Repr, DecidableEq

/-- A fresh primary key for a spawned story: one more than the largest
id present (the database generates a fresh id on insert). -/
def freshId (db : List Story) : Nat :=
  (db.map (fun s => s.id)).foldr max 0 + 1

/-- `BackgroundWorker._spawn_story`: insert a new story with status
"active" and zero chapters, and mark it dirty. -/
def spawnStory (now : Int) (p : SpawnPayload) (db : List Story) :
    List Story × Nat :=
  let sid := freshId db
  (db ++ [{ id := sid, status := "active", chapterCount := 0,
            lastChapterAt := none, createdAt := now, completedAt := none,
            completionReason := none, coverImageUrl := none,
            totalTokens := none, title := p.title, premise := p.premise }],
   sid)

/-- Replace the story row with matching id (SQLAlchemy mutates the row
in place; ids are primary keys). -/
def writeStory (db : List Story) (s : Story) : List Story :=
  db.map (fun x => if x.id = s.id then s else x)

/-- Write back a batch of story rows in order. -/
def writeStories (db : List Story) (ss : List Story) : List Story :=
  ss.foldl writeStory db

/-- The spawn loop of `_maintain_story_count` (`for _ in range(needed)`):
spawn `n` stories, accumulating effects and dirty ids. -/
def spawnLoop (now : Int) (spawns : Nat → SpawnPayload) :
    Nat → Nat → List Story → List Story × List WorkerEffect × List Nat
  | 0, _, db => (db, [], [])
  | n + 1, i, db =>
    let r := spawnStory now (spawns i) db
    let t := spawnLoop now spawns n (i + 1) r.1
    (t.1, WorkerEffect.spawnCall i :: t.2.1, r.2 :: t.2.2)

/-- The victim-completion loop of `_maintain_story_count`. -/
def completeVictims (settings : WorkerSettings) (cover : Nat → CoverOutcome)
    (now : Int) : List Story → List Story →
    List Story × List WorkerEffect × List Nat
  | db, [] => (db, [], [])
  | db, v :: vs =>
    let c := completeStory settings (cover v.id) now v "Reduced to maintain limit"
    let db1 := writeStory db c.1
    let t := completeVictims settings cover now db1 vs
    (t.1, c.2.1 ++ t.2.1, (if c.2.2 then [c.1.id] else []) ++ t.2.2)

/-- `BackgroundWorker._maintain_story_count`: spawn stories up to the
minimum, or complete the newest active stories down to the maximum. -/
def maintainStoryCount (cfg : RuntimeConfig) (settings : WorkerSettings)
    (now : Int) (spawns : Nat → SpawnPayload) (cover : Nat → CoverOutcome)
    (db : List Story) : List Story × List WorkerEffect × List Nat :=
  let activeCount := (db.filter (fun s => s.status == "active")).length
  if activeCount < cfg.minActiveStories then
    spawnLoop now spawns (cfg.minActiveStories - activeCount) 0 db
  else if cfg.maxActiveStories < activeCount then
    let excess := activeCount - cfg.maxActiveStories
    let victims := (pySorted (fun a b => decide (b.createdAt ≤ a.createdAt))
      (db.filter (fun s => s.status == "active"))).take excess
    completeVictims settings cover now db victims
  else (db, [], [])

/-- The orchestrator operations that can touch story state: a tick's
per-story advancement (followed by population maintenance when no
exception propagated), standalone population maintenance, a manual
("kill") completion, and a manual chapter generation (which may trigger
an evaluation and hence a completion).  Collaborator outcomes are
oracle parameters of the operation. -/
inductive WorkerOp
  | tick (cfg : RuntimeConfig) (settings : WorkerSettings) (now : Int)
      (gen : Nat → GenOutcome) (ev : Nat → EvalOutcome)
      (cover : Nat → CoverOutcome) (spawns : Nat → SpawnPayload)
  | maintain (cfg : RuntimeConfig) (settings : WorkerSettings) (now : Int)
      (spawns : Nat → SpawnPayload) (cover : Nat → CoverOutcome)
  | manualComplete (storyId : Nat) (settings : WorkerSettings)
      (cover : CoverOutcome) (now : Int) (reason : String)
  | manualChapter (storyId : Nat) (cfg : RuntimeConfig)
      (settings : WorkerSettings) (now : Int) (gen : GenOutcome)
      (ev : EvalOutcome) (cover : CoverOutcome)

/-- Apply one orchestrator operation to the story table. -/
def applyOp (db : List Story) : WorkerOp → List Story
  | .tick cfg settings now gen ev cover spawns =>
    let active := pySorted (fun a b => decide (a.createdAt ≤ b.createdAt))
      (db.filter (fun s => s.status == "active"))
    let r := runCycleLoop cfg settings now gen ev cover active
    let db1 := writeStories db r.1
    if r.2.2.2 then db1
    else (maintainStoryCount cfg settings now spawns cover db1).1
  | .maintain cfg settings now spawns cover =>
    (maintainStoryCount cfg settings now spawns cover db).1
  | .manualComplete sid settings cover now reason =>
    match db.find? (fun s => s.id == sid) with
    | none => db
    | some s => writeStory db (completeStory settings cover now s reason).1
  | .manualChapter sid cfg settings now gen ev cover =>
    match db.find? (fun s => s.id == sid) with
    | none => db
    | some s =>
      match (createChapter settings gen now s).2 with
      | none => db
      | some (s1, _) =>
        let db1 := writeStory db s1
        if settings.minChaptersBeforeEval ≤ s1.chapterCount ∧
            s1.chapterCount % cfg.evaluationIntervalChapters = 0 then
          match (evaluateStory cfg settings ev cover now s1).2 with
          | none => db1
          | some (s2, _) => writeStory db1 s2
        else db1

/-- Apply a sequence of orchestrator operations. -/
def applyOps (db : List Story) (ops : List WorkerOp) : List Story :=
  ops.foldl applyOp db

/-- `_complete_story` never changes the story id. -/
theorem completeStory_id (settings : WorkerSettings) (cover : CoverOutcome)
    (now : Int) (story : Story) (reason : String) :
    (completeStory settings cover now story reason).1.id = story.id := by
  by_cases h : story.status = "completed"
  · simp [completeStory, h]
  · cases cover with
    | raises =>
      by_cases hc : optStrFalsy story.coverImageUrl <;> simp [completeStory, h, hc]
    | url u =>
      by_cases hu : u = "" <;>
        by_cases hc : optStrFalsy story.coverImageUrl <;>
          simp [completeStory, h, hu, hc]

/-- After `_complete_story` the story's status is "completed" (it
either was already, or is set). -/
theorem completeStory_status (settings : WorkerSettings) (cover : CoverOutcome)
    (now : Int) (story : Story) (reason : String) :
    (completeStory settings cover now story reason).1.status = "completed" := by
  by_cases h : story.status = "completed"
  · simp [completeStory, h]
  · cases cover with
    | raises =>
      by_cases hc : optStrFalsy story.coverImageUrl <;> simp [completeStory, h, hc]
    | url u =>
      by_cases hu : u = "" <;>
        by_cases hc : optStrFalsy story.coverImageUrl <;>
          simp [completeStory, h, hu, hc]

/-- `_create_chapter` preserves id and status when it succeeds. -/
theorem createChapter_some_fields (settings : WorkerSettings)
    (gen : GenOutcome) (now : Int) (story s1 : Story) (d : Bool)
    (h : (createChapter settings gen now story).2 = some (s1, d)) :
    s1.id = story.id ∧ s1.status = story.status := by
  cases gen with
  | raises => simp [createChapter] at h
  | ok data =>
    simp only [createChapter, Option.some.injEq, Prod.mk.injEq] at h
    rcases h with ⟨h1, h2⟩
    rw [← h1]
    exact ⟨rfl, rfl⟩

/-- `_evaluate_story` preserves id, and either leaves the status alone
or completes the story. -/
theorem evaluateStory_some_fields (cfg : RuntimeConfig)
    (settings : WorkerSettings) (ev : EvalOutcome) (cover : CoverOutcome)
    (now : Int) (story s2 : Story) (d : Bool)
    (h : (evaluateStory cfg settings ev cover now story).2 = some (s2, d)) :
    s2.id = story.id ∧ (s2.status = story.status ∨ s2.status = "completed") := by
  cases ev with
  | raises => simp [evaluateStory] at h
  | ok overall shouldContinue reasoning =>
    by_cases hq : ¬ shouldContinue ∨ overall < cfg.qualityScoreMin
    · simp only [evaluateStory, hq, if_true, Option.some.injEq, Prod.mk.injEq] at h
      rcases h with ⟨h1, h2⟩
      rw [← h1]
      exact ⟨completeStory_id _ _ _ _ _, Or.inr (completeStory_status _ _ _ _ _)⟩
    · simp only [evaluateStory, hq, if_false, Option.some.injEq, Prod.mk.injEq] at h
      rcases h with ⟨h1, h2⟩
      rw [← h1]
      exact ⟨rfl, Or.inl rfl⟩

/-- `_process_story` preserves the story id, and either leaves the
status alone or completes the story. -/
theorem processStory_story_fields (cfg : RuntimeConfig)
    (settings : WorkerSettings) (now : Int) (gen : GenOutcome)
    (ev : EvalOutcome) (cover : CoverOutcome) (story : Story) :
    (processStory cfg settings now gen ev cover story).story.id = story.id ∧
    ((processStory cfg settings now gen ev cover story).story.status = story.status ∨
      (processStory cfg settings now gen ev cover story).story.status = "completed") := by
  simp only [processStory]
  split
  · exact ⟨rfl, Or.inl rfl⟩
  · split
    · exact ⟨completeStory_id _ _ _ _ _, Or.inr (completeStory_status _ _ _ _ _)⟩
    · have chfields : ∀ (s1 : Story) (d : Bool),
          (if cfg.chapterIntervalSeconds ≤ now - story.lastChapterAt.getD story.createdAt
            then createChapter settings gen now story
            else ([], some (story, false))).2 = some (s1, d) →
          s1.id = story.id ∧ s1.status = story.status := by
        intro s1 d h
        by_cases hiv : cfg.chapterIntervalSeconds ≤
            now - story.lastChapterAt.getD story.createdAt
        · rw [if_pos hiv] at h
          exact createChapter_some_fields settings gen now story s1 d h
        · rw [if_neg hiv] at h
          simp only [Option.some.injEq, Prod.mk.injEq] at h
          rw [← h.1]
          exact ⟨rfl, rfl⟩
      split
      · exact ⟨rfl, Or.inl rfl⟩
      · rename_i story1 dirty1 heq
        have h1 := chfields story1 dirty1 heq
        split
        · split
          · exact ⟨h1.1, Or.inl h1.2⟩
          · rename_i story2 dirty2 heq2
            have h2 := evaluateStory_some_fields cfg settings ev cover now
              story1 story2 dirty2 heq2
            refine ⟨h2.1.trans h1.1, ?_⟩
            rcases h2.2 with h | h
            · rw [h, h1.2]
              exact Or.inl rfl
            · exact Or.inr h
        · exact ⟨h1.1, Or.inl h1.2⟩

/-- Every story row returned by the cycle loop originates from an input
story whose id it keeps and whose status it keeps or completes. -/
theorem runCycleLoop_story_fields (cfg : RuntimeConfig)
    (settings : WorkerSettings) (now : Int) (gen : Nat → GenOutcome)
    (ev : Nat → EvalOutcome) (cover : Nat → CoverOutcome) :
    ∀ stories : List Story,
      ∀ s' ∈ (runCycleLoop cfg settings now gen ev cover stories).1,
        ∃ s ∈ stories, s'.id = s.id ∧
          (s'.status = s.status ∨ s'.status = "completed") := by
  intro stories
  induction stories with
  | nil => intro s' hs'; simp [runCycleLoop] at hs'
  | cons story rest ih =>
    intro s' hs'
    rw [runCycleLoop] at hs'
    by_cases hr : (processStory cfg settings now (gen story.id) (ev story.id)
        (cover story.id) story).raised
    · rw [if_pos hr] at hs'
      simp only [List.mem_singleton] at hs'
      subst hs'
      exact ⟨story, List.mem_cons_self _ _,
        (processStory_story_fields cfg settings now _ _ _ story).1,
        (processStory_story_fields cfg settings now _ _ _ story).2⟩
    · rw [if_neg hr] at hs'
      simp only [List.mem_cons] at hs'
      rcases hs' with hs' | hs'
      · subst hs'
        exact ⟨story, List.mem_cons_self _ _,
          (processStory_story_fields cfg settings now _ _ _ story).1,
          (processStory_story_fields cfg settings now _ _ _ story).2⟩
      · rcases ih s' hs' with ⟨s, hsmem, hrest⟩
        exact ⟨s, List.mem_cons_of_mem _ hsmem, hrest⟩

/-- The story with id `sid` exists and every row carrying that id has
status "completed". -/
def CompletedStays (db : List Story) (sid : Nat) : Prop :=
  (∃ s ∈ db, s.id = sid) ∧ (∀ s ∈ db, s.id = sid → s.status = "completed")

/-- Writing back a row that either has a different id or is completed
preserves `CompletedStays`. -/
theorem writeStory_preserves (db : List Story) (sid : Nat) (s' : Story)
    (hs : s'.id ≠ sid ∨ s'.status = "completed")
    (h : CompletedStays db sid) : CompletedStays (writeStory db s') sid := by
  obtain ⟨⟨s0, hs0, hid⟩, hall⟩ := h
  constructor
  · refine ⟨if s0.id = s'.id then s' else s0, List.mem_map_of_mem _ hs0, ?_⟩
    by_cases he : s0.id = s'.id
    · rw [if_pos he, ← he, hid]
    · rw [if_neg he]
      exact hid
  · intro t ht htid
    rcases List.mem_map.1 ht with ⟨x, hx, hxe⟩
    by_cases hxi : x.id = s'.id
    · rw [if_pos hxi] at hxe
      subst hxe
      rcases hs with hne | hcs
      · exact absurd htid hne
      · exact hcs
    · rw [if_neg hxi] at hxe
      subst hxe
      exact hall x hx htid

/-- Batch write-back preserves `CompletedStays` when every written row
has a different id or is completed. -/
theorem writeStories_preserves (sid : Nat) :
    ∀ (ss : List Story) (db : List Story),
      (∀ p ∈ ss, p.id ≠ sid ∨ p.status = "completed") →
      CompletedStays db sid → CompletedStays (writeStories db ss) sid := by
  intro ss
  induction ss with
  | nil => intro db _ h; exact h
  | cons p ps ih =>
    intro db hcond h
    exact ih (writeStory db p)
      (fun q hq => hcond q (List.mem_cons_of_mem _ hq))
      (writeStory_preserves db sid p (hcond p (List.mem_cons_self _ _)) h)

/-- Every member id is below the fold of `max`. -/
theorem mem_le_foldr_max : ∀ (l : List Nat) (x : Nat), x ∈ l →
    x ≤ l.foldr max 0 := by
  intro l
  induction l with
  | nil => intro x hx; cases hx
  | cons y ys ih =>
    intro x hx
    rcases List.mem_cons.1 hx with hx | hx
    · subst hx
      exact Nat.le_max_left _ _
    · exact (ih x hx).trans (Nat.le_max_right _ _)

/-- Ids of stored rows are strictly below the fresh id. -/
theorem mem_id_lt_freshId (db : List Story) (s : Story) (hs : s ∈ db) :
    s.id < freshId db :=
  Nat.lt_succ_of_le (mem_le_foldr_max _ _ (List.mem_map_of_mem _ hs))

/-- Spawning preserves `CompletedStays` (the inserted row gets a fresh
id, distinct from any stored id). -/
theorem spawnStory_preserves (now : Int) (p : SpawnPayload) (db : List Story)
    (sid : Nat) (h : CompletedStays db sid) :
    CompletedStays (spawnStory now p db).1 sid := by
  obtain ⟨⟨s0, hs0, hid⟩, hall⟩ := h
  constructor
  · exact ⟨s0, List.mem_append_left _ hs0, hid⟩
  · intro t ht htid
    rcases List.mem_append.1 ht with ht | ht
    · exact hall t ht htid
    · simp only [List.mem_singleton] at ht
      subst ht
      exfalso
    -- the new id is strictly larger than sid, which occurs in db
      have := mem_id_lt_freshId db s0 hs0
      rw [hid] at this
      simp only [spawnStory] at htid
      omega

/-- The spawn loop preserves `CompletedStays`. -/
theorem spawnLoop_preserves (now : Int) (spawns : Nat → SpawnPayload)
    (sid : Nat) :
    ∀ (n i : Nat) (db : List Story), CompletedStays db sid →
      CompletedStays (spawnLoop now spawns n i db).1 sid := by
  intro n
  induction n with
  | zero => intro i db h; exact h
  | succ m ih =>
    intro i db h
    exact ih (i + 1) _ (spawnStory_preserves now (spawns i) db sid h)

/-- The victim-completion loop preserves `CompletedStays`. -/
theorem completeVictims_preserves (settings : WorkerSettings)
    (cover : Nat → CoverOutcome) (now : Int) (sid : Nat) :
    ∀ (vs : List Story) (db : List Story), CompletedStays db sid →
      CompletedStays (completeVictims settings cover now db vs).1 sid := by
  intro vs
  induction vs with
  | nil => intro db h; exact h
  | cons v rest ih =>
    intro db h
    exact ih _ (writeStory_preserves db sid _
      (Or.inr (completeStory_status _ _ _ _ _)) h)

/-- Population maintenance preserves `CompletedStays`. -/
theorem maintainStoryCount_preserves (cfg : RuntimeConfig)
    (settings : WorkerSettings) (now : Int) (spawns : Nat → SpawnPayload)
    (cover : Nat → CoverOutcome) (db : List Story) (sid : Nat)
    (h : CompletedStays db sid) :
    CompletedStays (maintainStoryCount cfg settings now spawns cover db).1 sid := by
  rw [maintainStoryCount]
  split
  · exact spawnLoop_preserves now spawns sid _ 0 db h
  · split
    · exact completeVictims_preserves settings cover now sid _ db h
    · exact h

/-- Each orchestrator operation preserves `CompletedStays`: no
operation ever moves a completed story out of "completed". -/
theorem applyOp_preserves (db : List Story) (op : WorkerOp) (sid : Nat)
    (h : CompletedStays db sid) : CompletedStays (applyOp db op) sid := by
  cases op with
  | tick cfg settings now gen ev cover spawns =>
    simp only [applyOp]
    have hdb1 : CompletedStays (writeStories db
        (runCycleLoop cfg settings now gen ev cover
          (pySorted (fun a b => decide (a.createdAt ≤ b.createdAt))
            (db.filter (fun s => s.status == "active")))).1) sid := by
      refine writeStories_preserves sid _ db ?_ h
      intro p hp
      rcases runCycleLoop_story_fields cfg settings now gen ev cover _ p hp
        with ⟨s, hsmem, hids, _⟩
      have hsdb : s ∈ db.filter (fun s => s.status == "active") :=
        (pySorted_mem _ _ s).1 hsmem
      have hsactive : s.status = "active" := by
        have := List.of_mem_filter hsdb
        simpa using this
      left
      intro hpid
      have : s.status = "completed" :=
        h.2 s (List.mem_of_mem_filter hsdb) (hids ▸ hpid)
      rw [hsactive] at this
      exact absurd this (by decide)
    split
    · exact hdb1
    · exact maintainStoryCount_preserves cfg settings now spawns cover _ sid hdb1
  | maintain cfg settings now spawns cover =>
    exact maintainStoryCount_preserves cfg settings now spawns cover db sid h
  | manualComplete sid2 settings cover now reason =>
    simp only [applyOp]
    split
    · exact h
    · exact writeStory_preserves db sid _
        (Or.inr (completeStory_status _ _ _ _ _)) h
  | manualChapter sid2 cfg settings now gen ev cover =>
    simp only [applyOp]
    split
    · exact h
    · rename_i s hfind
      have hsdb : s ∈ db := by
        have := List.find?_some hfind
        exact List.mem_of_find?_eq_some hfind
      split
      · exact h
      · rename_i s1 d1 hch
        have h1 := createChapter_some_fields settings gen now s s1 d1 hch
        have hcond1 : s1.id ≠ sid ∨ s1.status = "completed" := by
          by_cases hid : s1.id = sid
          · right
            rw [h1.2]
            exact h.2 s hsdb (h1.1 ▸ hid)
          · exact Or.inl hid
        have hdb1 := writeStory_preserves db sid s1 hcond1 h
        split
        · split
          · exact hdb1
          · rename_i s2 d2 hev
            have h2 := evaluateStory_some_fields cfg settings _ _ now s1 s2 d2 hev
            refine writeStory_preserves _ sid s2 ?_ hdb1
            by_cases hid : s2.id = sid
            · right
              rcases h2.2 with hst | hst
              · rw [hst, h1.2]
                exact h.2 s hsdb (h1.1 ▸ h2.1 ▸ hid)
              · exact hst
            · exact Or.inl hid
        · exact hdb1

/-- C1: story status transitions are one-way.  For every starting story
table in which the story with id `sid` exists and is "completed", after
any sequence of orchestrator operations (ticks with their chapter
generation and evaluations, population maintenance, manual completion,
manual chapter generation) every row with id `sid` still has status
"completed" — no operation ever sets it back to "active". -/
theorem c1_status_transition_one_way (ops : List WorkerOp) (db : List Story)
    (sid : Nat) (h : CompletedStays db sid) :
    CompletedStays (applyOps db ops) sid := by
  induction ops generalizing db with
  | nil => exact h
  | cons op rest ih => exact ih (applyOp db op) (applyOp_preserves db op sid h)

/-- A concrete completed story used by witness instantiations. -/
def completedWitStory : Story :=
  { witStory with
    id := 5
    status := "completed"
    completedAt := some 1
    completionReason := some "done" }

/-- A concrete runtime configuration used by witness instantiations. -/
def witCfg : RuntimeConfig :=
  { maxChaptersPerStory := 10, chapterIntervalSeconds := 60,
    evaluationIntervalChapters := 5, qualityScoreMin := 0,
    minActiveStories := 0, maxActiveStories := 10 }

/-- Concrete worker settings used by witness instantiations. -/
def witSettings : WorkerSettings :=
  { minChaptersBeforeEval := 3, enableWebsocket := false }

/-- C1 (witness): a completed story stays completed across a tick, a
maintenance pass and a manual completion. -/
theorem c1_status_transition_one_way_witness :
    CompletedStays
      (applyOps [completedWitStory, witStory]
        [WorkerOp.tick witCfg witSettings 100 (fun _ => GenOutcome.raises)
          (fun _ => EvalOutcome.ok 1 true none) (fun _ => CoverOutcome.url "")
          (fun _ => { title := "t", premise := "p" }),
         WorkerOp.maintain witCfg witSettings 101
          (fun _ => { title := "t", premise := "p" }) (fun _ => CoverOutcome.url ""),
         WorkerOp.manualComplete 5 witSettings (CoverOutcome.url "") 102 "again"])
      5 := by
  refine c1_status_transition_one_way _ _ 5 ⟨⟨completedWitStory, ?_, ?_⟩, ?_⟩
  · decide
  · decide
  · decide

/-- C10: completing an already-completed story is a no-op.  The entire
body of `_complete_story` is guarded by `status != "completed"`, so the
story row (status, completed_at, completion_reason, cover_image_url) is
returned unchanged, the effect trace is empty (no cover-image call, no
broadcast) and the story is not added to the dirty set. -/
theorem c10_complete_story_noop (settings : WorkerSettings)
    (cover : CoverOutcome) (now : Int) (story : Story) (reason : String)
    (h : story.status = "completed") :
    completeStory settings cover now story reason = (story, [], false) := by
  simp [completeStory, h]

/-- C10 (witness): completing the already-completed concrete story. -/
theorem c10_complete_story_noop_witness :
    completeStory witSettings (CoverOutcome.url "fresh") 42 completedWitStory
      "another reason" = (completedWitStory, [], false) :=
  c10_complete_story_noop witSettings (CoverOutcome.url "fresh") 42
    completedWitStory "another reason" (by decide)

/-- Concrete two-story tick used to analyse exception propagation: both
stories are active with a chapter due, generation raises for story 1
and succeeds for story 2. -/
def c2StoryA : Story :=
  { id := 1, status := "active", chapterCount := 1, lastChapterAt := some 0,
    createdAt := 0, completedAt := none, completionReason := none,
    coverImageUrl := none, totalTokens := none, title := "A", premise := "a" }

/-- Second story of the two-story tick. -/
def c2StoryB : Story :=
  { c2StoryA with id := 2, title := "B", premise := "b" }

/-- Generation oracle raising for story 1 only. -/
def c2Gen : Nat → GenOutcome :=
  fun sid => if sid = 1 then GenOutcome.raises
    else GenOutcome.ok { content := "x", tokensUsed := none }

/-- Evaluation oracle that always passes. -/
def c2Ev : Nat → EvalOutcome := fun _ => EvalOutcome.ok 1 true none

/-- Cover oracle returning no image. -/
def c2Cover : Nat → CoverOutcome := fun _ => CoverOutcome.url ""

/-- C2 (counterexample): a failure in one story's chapter generation
DOES abort processing of the later stories in the same tick.  With both
stories due, generation raising on story 1 ends the cycle loop
exceptionally; the effect trace holds only story 1's generation call,
and story 2 — which processed alone would issue its generation call —
is never attempted. -/
theorem c2_failure_isolation_counterexample :
    (runCycleLoop witCfg witSettings 100 c2Gen c2Ev c2Cover
        [c2StoryA, c2StoryB]).2.2.2 = true ∧
    (runCycleLoop witCfg witSettings 100 c2Gen c2Ev c2Cover
        [c2StoryA, c2StoryB]).2.1 = [WorkerEffect.genChapterCall 1 2] ∧
    WorkerEffect.genChapterCall 2 2 ∉
      (runCycleLoop witCfg witSettings 100 c2Gen c2Ev c2Cover
        [c2StoryA, c2StoryB]).2.1 ∧
    (processStory witCfg witSettings 100 (c2Gen 2) (c2Ev 2) (c2Cover 2)
        c2StoryB).effects = [WorkerEffect.genChapterCall 2 2] := by
  refine ⟨?_, ?_, ?_, ?_⟩ <;> decide

/-- C2 (amended): each story's advancement is NOT wrapped
independently; the cycle loop has no per-story handler, so the first
story whose processing raises terminates the loop: the tick's trace is
exactly the prefix stories' effects followed by the failing story's
effects, the raised flag is set (the exception is caught only at the
tick boundary), and the stories after the failure contribute nothing. -/
theorem c2_failure_aborts_cycle (cfg : RuntimeConfig)
    (settings : WorkerSettings) (now : Int) (gen : Nat → GenOutcome)
    (ev : Nat → EvalOutcome) (cover : Nat → CoverOutcome) :
    ∀ (pre : List Story) (story : Story) (post : List Story),
      (∀ x ∈ pre, (processStory cfg settings now (gen x.id) (ev x.id)
        (cover x.id) x).raised = false) →
      (processStory cfg settings now (gen story.id) (ev story.id)
        (cover story.id) story).raised = true →
      runCycleLoop cfg settings now gen ev cover (pre ++ story :: post) =
        ((runCycleLoop cfg settings now gen ev cover pre).1 ++
           [(processStory cfg settings now (gen story.id) (ev story.id)
              (cover story.id) story).story],
         (runCycleLoop cfg settings now gen ev cover pre).2.1 ++
           (processStory cfg settings now (gen story.id) (ev story.id)
              (cover story.id) story).effects,
         (runCycleLoop cfg settings now gen ev cover pre).2.2.1 ++
           (processStory cfg settings now (gen story.id) (ev story.id)
              (cover story.id) story).dirty,
         true) := by
  intro pre
  induction pre with
  | nil =>
    intro story post _ hra
    show runCycleLoop cfg settings now gen ev cover (story :: post) = _
    rw [runCycleLoop]
    simp only [runCycleLoop, hra, if_true, List.nil_append]
  | cons x xs ih =>
    intro story post hpre hra
    have hx : (processStory cfg settings now (gen x.id) (ev x.id)
        (cover x.id) x).raised = false :=
      hpre x (List.mem_cons_self _ _)
    have ihx := ih story post
      (fun y hy => hpre y (List.mem_cons_of_mem _ hy)) hra
    rw [List.cons_append, runCycleLoop, runCycleLoop]
    simp [hx, ihx]

/-- C2 (witness for the amended theorem): the concrete two-story tick
instantiates the abort shape with an empty prefix. -/
theorem c2_failure_aborts_cycle_witness :
    runCycleLoop witCfg witSettings 100 c2Gen c2Ev c2Cover
        ([] ++ c2StoryA :: [c2StoryB]) =
      ((runCycleLoop witCfg witSettings 100 c2Gen c2Ev c2Cover []).1 ++
         [(processStory witCfg witSettings 100 (c2Gen c2StoryA.id)
            (c2Ev c2StoryA.id) (c2Cover c2StoryA.id) c2StoryA).story],
       (runCycleLoop witCfg witSettings 100 c2Gen c2Ev c2Cover []).2.1 ++
         (processStory witCfg witSettings 100 (c2Gen c2StoryA.id)
            (c2Ev c2StoryA.id) (c2Cover c2StoryA.id) c2StoryA).effects,
       (runCycleLoop witCfg witSettings 100 c2Gen c2Ev c2Cover []).2.2.1 ++
         (processStory witCfg witSettings 100 (c2Gen c2StoryA.id)
            (c2Ev c2StoryA.id) (c2Cover c2StoryA.id) c2StoryA).dirty,
       true) := by
  exact c2_failure_aborts_cycle witCfg witSettings 100 c2Gen c2Ev c2Cover
    [] c2StoryA [c2StoryB] (by intro x hx; cases hx) (by decide)

/-- ASCII model of the regex word character class `\w`. -/
def isWordChar (c : Char) : Bool :=
  c.isAlpha || c.isDigit || c = '_'

/-- Does the list start with a word character (used for the trailing
`\b` boundary check of `ENTITY_PATTERN`)? -/
def headIsWordChar : List Char → Bool
  | [] => false
  | c :: _ => isWordChar c

/-- One `(?:\s+[A-Z][a-zA-Z]+)` unit of `ENTITY_PATTERN`: a whitespace
run followed by a capitalised letter run of length at least 2.  Collects
all greedy repetitions, returning the (whitespace, word) pairs and the
unconsumed rest (starting right after the last word).  The countdown is
an upper bound on the number of characters consumed. -/
def collectPairs : Nat → List Char → List (List Char × List Char) × List Char
  | 0, cs => ([], cs)
  | fuel + 1, cs =>
    let ws := cs.takeWhile (fun c => c.isWhitespace)
    let r1 := cs.dropWhile (fun c => c.isWhitespace)
    if ws.isEmpty then ([], cs)
    else
      let w := r1.takeWhile (fun c => c.isAlpha)
      let r2 := r1.dropWhile (fun c => c.isAlpha)
      if (match w with
          | [] => false
          | u :: _ => u.isUpper) = true ∧ 2 ≤ w.length then
        let t := collectPairs fuel r2
        ((ws, w) :: t.1, t.2)
      else ([], cs)

/-- Concatenate the (whitespace, word) pairs back into characters. -/
def joinPairs (pairs : List (List Char × List Char)) : List Char :=
  pairs.foldr (fun p acc => p.1 ++ p.2 ++ acc) []

/-- ASCII model of `ENTITY_PATTERN.findall` (the proper-noun-phrase
scan of `entity_extractor.py`): non-overlapping leftmost matches of
`\b([A-Z][a-zA-Z]+(?:\s+[A-Z][a-zA-Z]+)*)\b`, scanning left to right.
`prev` records whether the previous character was a word character (the
leading `\b`); a candidate starts at an uppercase letter whose maximal
letter run has length at least 2; greedy word collection then drops the
last word when the trailing `\b` fails (the preceding whitespace then
satisfies the boundary), and a single-word candidate failing the
boundary is no match at all.  The countdown is an upper bound on the
characters consumed per recursive call. -/
def scanMatches : Nat → Bool → List Char → List (List Char)
  | 0, _, _ => []
  | _ + 1, _, [] => []
  | fuel + 1, prev, c :: rest =>
    if ¬ prev ∧ c.isUpper then
      let run := (c :: rest).takeWhile (fun x => x.isAlpha)
      let r1 := (c :: rest).dropWhile (fun x => x.isAlpha)
      if 2 ≤ run.length then
        let t := collectPairs (fuel + 1) r1
        if headIsWordChar t.2 then
          match t.1.getLast? with
          | none => scanMatches fuel true r1
          | some lastPair =>
            (run ++ joinPairs t.1.dropLast) ::
              scanMatches fuel true (lastPair.1 ++ lastPair.2 ++ t.2)
        else
          (run ++ joinPairs t.1) :: scanMatches fuel true t.2
      else
        scanMatches fuel true r1
    else
      scanMatches fuel (isWordChar c) rest

/-- `ENTITY_PATTERN.findall(content)` as strings. -/
def entityMatches (s : String) : List String :=
  (scanMatches (s.toList.length + 1) false s.toList).map (fun cs => String.mk cs)

/-- `ENTITY_STOPWORDS` from `entity_extractor.py`. -/
def ENTITY_STOPWORDS : List String :=
  ["The", "A", "An", "And", "But", "Or", "He", "She", "They", "His",
   "Her", "Its", "Their", "Chapter", "Story"]

/-- Python `str.upper()` (ASCII). -/
def pyUpper (s : String) : String :=
  String.mk (s.toList.map Char.toUpper)

/-- The per-chapter match filter of `_extract_entities`: keep a cleaned
match unless it is empty, a stopword phrase, or entirely uppercase
(`cleaned.upper() == cleaned`, the SHOUTING filter).  Matches never
carry leading or trailing whitespace, so `strip()` is the identity on
them. -/
def keepMatch (cleaned : String) : Bool :=
  !(cleaned == "" || ENTITY_STOPWORDS.contains cleaned || pyUpper cleaned == cleaned)

/-- Occurrence tally: name, count, chapter numbers in append order
(mirrors `counts: Counter` plus `chapter_occurrences: defaultdict`). -/
def tallyInsert (acc : List (String × Nat × List Nat)) (name : String)
    (ch : Nat) : List (String × Nat × List Nat) :=
  if acc.any (fun e => e.1 == name) then
    acc.map (fun e => if e.1 == name then (e.1, e.2.1 + 1, e.2.2 ++ [ch]) else e)
  else acc ++ [(name, 1, [ch])]

/-- Tally all kept matches of one chapter document. -/
def tallyChapter (acc : List (String × Nat × List Nat)) (doc : ChapterDoc) :
    List (String × Nat × List Nat) :=
  ((entityMatches doc.content).filter keepMatch).foldl
    (fun a m => tallyInsert a m doc.chapterNumber) acc

/-- A `StoryEntity` row.  The `supporting_chapters` key of
`metadata_json` is modelled as the `supportingChapters` field. -/
structure StoryEntity where
  storyId : Nat
  name : String
  entityType : String
  aliases : Option (List String)
  confidence : Option ℚ
  firstSeenChapter : Option Nat
  lastSeenChapter : Option Nat
  occurrenceCount : Nat
  supportingChapters : List Nat
  deriving Repr, DecidableEq

/-- Python `name.split()[0]`: the first whitespace-delimited token. -/
def firstToken (name : String) : List Char :=
  (name.toList.dropWhile (fun c => c.isWhitespace)).takeWhile
    (fun c => ¬ c.isWhitespace)

/-- Python `str.isupper()` on an ASCII string: at least one cased
character and no lowercase character. -/
def pyIsUpper (w : List Char) : Bool :=
  w.any (fun c => c.isAlpha) && ¬ w.any (fun c => c.isLower)

/-- The `entity_type` heuristic of `_extract_entities`:
`"organization" if " " in name and name.split()[0].isupper() else
"character"`. -/
def entityTypeOf (name : String) : String :=
  if name.toList.contains ' ' ∧ pyIsUpper (firstToken name) then "organization"
  else "character"

/-- Build one `StoryEntity` from a tally entry (the
`occurrences < min_occurrences` filter returns none). -/
def buildEntity (minOcc storyId : Nat) (e : String × Nat × List Nat) :
    Option StoryEntity :=
  if e.2.1 < minOcc then none
  else
    let chapters := pySorted (fun a b => decide (a ≤ b)) e.2.2
    some
      { storyId := storyId
        name := e.1
        entityType := entityTypeOf e.1
        aliases := none
        confidence := some (min 1 (3 / 10 + (e.2.1 : ℚ) / 5))
        firstSeenChapter := chapters.head?
        lastSeenChapter := chapters.getLast?
        occurrenceCount := e.2.1
        supportingChapters := chapters }

/-- `EntityExtractionService._extract_entities`: scan every chapter of
the corpus payload, tally kept proper-noun phrases with their chapter
numbers, and keep phrases reaching `min_occurrences`. -/
def extract_entities (minOcc storyId : Nat) (corpus : CorpusData) :
    List StoryEntity :=
  (corpus.chapters.foldl tallyChapter []).filterMap (buildEntity minOcc storyId)

/-- "The first word is capitalized" in the ordinary reading of the
specification: the phrase's first word starts with an uppercase
letter. -/
def firstWordCapitalized (name : String) : Bool :=
  match firstToken name with
  | [] => false
  | c :: _ => c.isUpper

/-- Corpus payload with one chapter mentioning "Captain Voss" twice. -/
def c8Corpus : CorpusData :=
  { title := "t", premise := "p",
    chapters := [{ chapterNumber := 1,
                   content := "Captain Voss met Captain Voss",
                   wordCount := 5, tokensUsed := 5 }] }

/-- C8 (counterexample): "Captain Voss" is kept as an entity (two
occurrences), its name is multi-word and its first word is capitalized,
yet its `entity_type` is "character", not "organization" — the code
tests `name.split()[0].isupper()`, which demands a fully uppercase
first word, not merely a capitalized one. -/
theorem c8_entity_type_counterexample :
    (extract_entities 2 1 c8Corpus).map (fun e => (e.name, e.entityType)) =
      [("Captain Voss", "character")] ∧
    ∃ e ∈ extract_entities 2 1 c8Corpus,
      e.name.toList.contains ' ' = true ∧ firstWordCapitalized e.name = true ∧
      e.entityType ≠ "organization" := by
  constructor
  · decide
  · decide

/-- C8 (amended): every extracted entity's `entity_type` is
"organization" if and only if its phrase contains a space and its first
word consists entirely of uppercase letters (Python `str.isupper()`);
otherwise it is "character". -/
theorem c8_entity_type_rule (minOcc storyId : Nat) (corpus : CorpusData)
    (e : StoryEntity) (he : e ∈ extract_entities minOcc storyId corpus) :
    e.entityType = entityTypeOf e.name ∧
    (e.entityType = "organization" ↔
      (e.name.toList.contains ' ' ∧ pyIsUpper (firstToken e.name))) := by
  rcases List.mem_filterMap.1 he with ⟨a, _, hba⟩
  have hname : e.name = a.1 ∧ e.entityType = entityTypeOf a.1 := by
    rw [buildEntity] at hba
    by_cases hlt : a.2.1 < minOcc
    · rw [if_pos hlt] at hba
      cases hba
    · rw [if_neg hlt] at hba
      simp only [Option.some.injEq] at hba
      rw [← hba]
      exact ⟨rfl, rfl⟩
  have het : e.entityType = entityTypeOf e.name := by
    rw [hname.2, hname.1]
  refine ⟨het, ?_⟩
  rw [het, entityTypeOf]
  by_cases hc : e.name.toList.contains ' ' ∧ pyIsUpper (firstToken e.name)
  · rw [if_pos hc]
    exact ⟨fun _ => hc, fun _ => rfl⟩
  · rw [if_neg hc]
    constructor
    · intro hch
      exact absurd hch (by decide)
    · intro hcc
      exact absurd hcc hc

/-- C8 (witness for the amended theorem). -/
theorem c8_entity_type_rule_witness :
    ∃ e ∈ extract_entities 2 1 c8Corpus,
      e.entityType = entityTypeOf e.name ∧ e.entityType = "character" := by
  have hm : ∃ e ∈ extract_entities 2 1 c8Corpus, e.entityType = "character" := by
    decide
  obtain ⟨e, he, hch⟩ := hm
  exact ⟨e, he, (c8_entity_type_rule 2 1 c8Corpus e he).1, hch⟩

/-- Python `str.lower()` (ASCII). -/
def toLowerStr (s : String) : String :=
  String.mk (s.toList.map Char.toLower)

/-- Python `sorted(set(l))` for strings (code-point order). -/
def pySortedSetStr (l : List String) : List String :=
  pySorted (fun a b => decide (a ≤ b)) l.dedup

/-- Python `sorted(set(l))` for naturals. -/
def pySortedSetNat (l : List Nat) : List Nat :=
  pySorted (fun a b => decide (a ≤ b)) l.dedup

/-- Membership in `sorted(set(l))` is membership in `l`. -/
theorem mem_pySortedSetNat (l : List Nat) (x : Nat) :
    x ∈ pySortedSetNat l ↔ x ∈ l := by
  rw [pySortedSetNat, pySorted_mem, List.mem_dedup]

/-- Membership in `sorted(set(l))` is membership in `l` (strings). -/
theorem mem_pySortedSetStr (l : List String) (x : String) :
    x ∈ pySortedSetStr l ↔ x ∈ l := by
  rw [pySortedSetStr, pySorted_mem, List.mem_dedup]

/-- `EntityOverrideRules` from `entity_extractor.py`: suppressed names
and a merge mapping (source name to target name). -/
structure EntityOverrideRules where
  suppress : List String
  merges : List (String × String)
  deriving Repr, DecidableEq

/-- `rules.merges.get(name, name)`. -/
def mergesGet (merges : List (String × String)) (name : String) : String :=
  match merges.find? (fun p => p.1 == name) with
  | some p => p.2
  | none => name

/-- The `first_seen_chapter` update of the merge step: take the new
entity's chapter when it is present and earlier (or the old one is
absent), mirroring lines 89-93 of `entity_extractor.py`. -/
def spanMin (ef existingf : Option Nat) : Option Nat :=
  match ef, existingf with
  | some a, none => some a
  | some a, some b => if a < b then some a else some b
  | none, x => x

/-- The `last_seen_chapter` update of the merge step (lines 94-98). -/
def spanMax (ef existingf : Option Nat) : Option Nat :=
  match ef, existingf with
  | some a, none => some a
  | some a, some b => if b < a then some a else some b
  | none, x => x

/-- `spanMin` returns one of its arguments. -/
theorem spanMin_eq_or (ef af : Option Nat) :
    spanMin ef af = ef ∨ spanMin ef af = af := by
  cases ef with
  | none => exact Or.inr rfl
  | some a =>
    cases af with
    | none => exact Or.inl rfl
    | some b =>
      by_cases hab : a < b
      · exact Or.inl (by simp [spanMin, hab])
      · exact Or.inr (by simp [spanMin, hab])

/-- `spanMax` returns one of its arguments. -/
theorem spanMax_eq_or (ef af : Option Nat) :
    spanMax ef af = ef ∨ spanMax ef af = af := by
  cases ef with
  | none => exact Or.inr rfl
  | some a =>
    cases af with
    | none => exact Or.inl rfl
    | some b =>
      by_cases hba : b < a
      · exact Or.inl (by simp [spanMax, hba])
      · exact Or.inr (by simp [spanMax, hba])

/-- `spanMin` is a lower bound for both arguments. -/
theorem spanMin_le (ef af : Option Nat) :
    (∀ a, ef = some a → ∃ b, spanMin ef af = some b ∧ b ≤ a) ∧
    (∀ a, af = some a → ∃ b, spanMin ef af = some b ∧ b ≤ a) := by
  cases ef with
  | none =>
    constructor
    · intro a ha
      cases ha
    · intro a ha
      subst ha
      exact ⟨a, rfl, le_refl a⟩
  | some c =>
    cases af with
    | none =>
      refine ⟨fun a ha => ⟨c, rfl, ?_⟩, fun a ha => by cases ha⟩
      cases ha
      exact le_refl c
    | some b =>
      by_cases hcb : c < b
      · refine ⟨fun a ha => ⟨c, by simp [spanMin, hcb], ?_⟩,
          fun a ha => ⟨c, by simp [spanMin, hcb], ?_⟩⟩
        · cases ha; exact le_refl c
        · cases ha; exact le_of_lt hcb
      · refine ⟨fun a ha => ⟨b, by simp [spanMin, hcb], ?_⟩,
          fun a ha => ⟨b, by simp [spanMin, hcb], ?_⟩⟩
        · cases ha; exact le_of_not_lt hcb
        · cases ha; exact le_refl b

/-- `spanMax` is an upper bound for both arguments. -/
theorem spanMax_le (ef af : Option Nat) :
    (∀ a, ef = some a → ∃ b, spanMax ef af = some b ∧ a ≤ b) ∧
    (∀ a, af = some a → ∃ b, spanMax ef af = some b ∧ a ≤ b) := by
  cases ef with
  | none =>
    constructor
    · intro a ha
      cases ha
    · intro a ha
      subst ha
      exact ⟨a, rfl, le_refl a⟩
  | some c =>
    cases af with
    | none =>
      refine ⟨fun a ha => ⟨c, rfl, ?_⟩, fun a ha => by cases ha⟩
      cases ha
      exact le_refl c
    | some b =>
      by_cases hbc : b < c
      · refine ⟨fun a ha => ⟨c, by simp [spanMax, hbc], ?_⟩,
          fun a ha => ⟨c, by simp [spanMax, hbc], ?_⟩⟩
        · cases ha; exact le_refl c
        · cases ha; exact le_of_lt hbc
      · refine ⟨fun a ha => ⟨b, by simp [spanMax, hbc], ?_⟩,
          fun a ha => ⟨b, by simp [spanMax, hbc], ?_⟩⟩
        · cases ha; exact le_of_not_lt hbc
        · cases ha; exact le_refl b

/-- The step of `apply_overrides_to_entities` acting on one already
aggregated entity when another entity folds into its canonical name
(lines 86-112 of `entity_extractor.py`): sum occurrence counts, take
the `or 0.0`-guarded maximum of confidences, widen the seen-chapter
span, union alias sets and union the supporting-chapter sets (each
union is only written when nonempty). -/
def mergeEntities (existing e : StoryEntity) (aliasSet : List String) :
    StoryEntity :=
  let first := spanMin e.firstSeenChapter existing.firstSeenChapter
  let last := spanMax e.lastSeenChapter existing.lastSeenChapter
  let combinedAliases := existing.aliases.getD [] ++ aliasSet
  let aliases := if combinedAliases.isEmpty then existing.aliases
    else some (pySortedSetStr combinedAliases)
  let combined := pySortedSetNat (existing.supportingChapters ++ e.supportingChapters)
  let supporting := if combined.isEmpty then existing.supportingChapters
    else combined
  { existing with
    occurrenceCount := existing.occurrenceCount + e.occurrenceCount
    confidence := some (max (existing.confidence.getD 0) (e.confidence.getD 0))
    firstSeenChapter := first
    lastSeenChapter := last
    aliases := aliases
    supportingChapters := supporting }

/-- The merge target of an entity name (identity when no rule). -/
def targetOf (r : EntityOverrideRules) (x : StoryEntity) : String :=
  mergesGet r.merges x.name

/-- The alias set accumulated for one entity: its own aliases plus, on
a rename, the original and target names. -/
def entryAliasSet (r : EntityOverrideRules) (x : StoryEntity) : List String :=
  if targetOf r x ≠ x.name then x.aliases.getD [] ++ [x.name, targetOf r x]
  else x.aliases.getD []

/-- `entity.name = target_name` on a rename. -/
def renamedEntity (r : EntityOverrideRules) (x : StoryEntity) : StoryEntity :=
  if targetOf r x ≠ x.name then { x with name := targetOf r x } else x

/-- The aggregated entry created when an entity first reaches its
canonical key (`aggregated[key] = entity`, with
`entity.aliases = sorted(alias_set)` when the alias set is nonempty). -/
def initEntry (r : EntityOverrideRules) (x : StoryEntity) : StoryEntity :=
  let e1 := renamedEntity r x
  if (entryAliasSet r x).isEmpty then e1
  else { e1 with aliases := some (pySortedSetStr (entryAliasSet r x)) }

/-- Folding one further entity into an existing aggregated entry. -/
def foldEntry (r : EntityOverrideRules) (acc : StoryEntity) (x : StoryEntity) :
    StoryEntity :=
  mergeEntities acc (renamedEntity r x) (entryAliasSet r x)

/-- One loop iteration of `apply_overrides_to_entities` over the
ordered aggregation dictionary (an association list keyed by the
lowercased canonical name). -/
def applyOverridesStep (r : EntityOverrideRules)
    (acc : List (String × StoryEntity)) (e : StoryEntity) :
    List (String × StoryEntity) :=
  if r.suppress.contains e.name then acc
  else
    let key := toLowerStr (renamedEntity r e).name
    match acc.find? (fun p => p.1 == key) with
    | some _ =>
      acc.map (fun q => if q.1 == key then (q.1, foldEntry r q.2 e) else q)
    | none => acc ++ [(key, initEntry r e)]

/-- `apply_overrides_to_entities` from `entity_extractor.py`: with no
rules the input is returned as a list; otherwise suppress, merge and
aggregate, and return the aggregated values sorted by lowercased
name. -/
def apply_overrides_to_entities (entities : List StoryEntity)
    (rules : Option EntityOverrideRules) : List StoryEntity :=
  match rules with
  | none => entities
  | some r =>
    pySorted (fun a b => decide (toLowerStr a.name ≤ toLowerStr b.name))
      ((entities.foldl (applyOverridesStep r) []).map (fun p => p.2))

/-- Does entity `e` fold into canonical key `k` (not suppressed and its
merge target lowercases to `k`)? -/
def foldsInto (r : EntityOverrideRules) (k : String) (e : StoryEntity) : Bool :=
  !(r.suppress.contains e.name) && (toLowerStr (mergesGet r.merges e.name) == k)

/-- The input entities folding into canonical key `k`, in order. -/
def foldedEntities (r : EntityOverrideRules) (entities : List StoryEntity)
    (k : String) : List StoryEntity :=
  entities.filter (foldsInto r k)

/-- The aggregate that the loop stores at key `k` once the entities in
`folded` have been processed, in order. -/
def entryFor (r : EntityOverrideRules) (folded : List StoryEntity) :
    Option StoryEntity :=
  match folded with
  | [] => none
  | x :: xs => some (xs.foldl (foldEntry r) (initEntry r x))

/-- What the aggregation loop guarantees for the entry aggregated from
the (ordered, nonempty) list `folded` of folding entities: summed
occurrence count, maximal (`or 0.0`-guarded) confidence, union seen
span, union supporting-chapter set, merge aliases recorded, and a name
inherited from the first folding entity's merge target. -/
structure EntrySpec (r : EntityOverrideRules) (folded : List StoryEntity)
    (ent : StoryEntity) : Prop where
  occ_sum : ent.occurrenceCount = (folded.map (fun x => x.occurrenceCount)).sum
  conf_le : ∀ x ∈ folded, x.confidence.getD 0 ≤ ent.confidence.getD 0
  conf_mem : ent.confidence.getD 0 ∈ folded.map (fun x => x.confidence.getD 0)
  first_le : ∀ x ∈ folded, ∀ a, x.firstSeenChapter = some a →
    ∃ b, ent.firstSeenChapter = some b ∧ b ≤ a
  first_mem : ent.firstSeenChapter ∈ folded.map (fun x => x.firstSeenChapter)
  last_le : ∀ x ∈ folded, ∀ a, x.lastSeenChapter = some a →
    ∃ b, ent.lastSeenChapter = some b ∧ a ≤ b
  last_mem : ent.lastSeenChapter ∈ folded.map (fun x => x.lastSeenChapter)
  supp_iff : ∀ n, n ∈ ent.supportingChapters ↔
    ∃ x ∈ folded, n ∈ x.supportingChapters
  alias_mem : ∀ x ∈ folded, targetOf r x ≠ x.name →
    x.name ∈ ent.aliases.getD [] ∧ targetOf r x ∈ ent.aliases.getD []
  name_src : ∃ x ∈ folded, ent.name = targetOf r x

/-- Renaming only changes the name, to the merge target. -/
theorem renamedEntity_name (r : EntityOverrideRules) (x : StoryEntity) :
    (renamedEntity r x).name = targetOf r x := by
  unfold renamedEntity
  split
  · rfl
  · rename_i h
    rw [not_not] at h
    rw [h]

/-- Fields other than the name are untouched by renaming. -/
theorem renamedEntity_rest (r : EntityOverrideRules) (x : StoryEntity) :
    (renamedEntity r x).occurrenceCount = x.occurrenceCount ∧
    (renamedEntity r x).confidence = x.confidence ∧
    (renamedEntity r x).firstSeenChapter = x.firstSeenChapter ∧
    (renamedEntity r x).lastSeenChapter = x.lastSeenChapter ∧
    (renamedEntity r x).supportingChapters = x.supportingChapters ∧
    (renamedEntity r x).aliases = x.aliases := by
  unfold renamedEntity
  split <;> exact ⟨rfl, rfl, rfl, rfl, rfl, rfl⟩

/-- The base entry satisfies the spec for the singleton folding list. -/
theorem initEntry_spec (r : EntityOverrideRules) (x : StoryEntity) :
    EntrySpec r [x] (initEntry r x) := by
  obtain ⟨ho, hc, hf, hl, hs, ha⟩ := renamedEntity_rest r x
  have restEq : (initEntry r x).occurrenceCount = x.occurrenceCount ∧
      (initEntry r x).confidence = x.confidence ∧
      (initEntry r x).firstSeenChapter = x.firstSeenChapter ∧
      (initEntry r x).lastSeenChapter = x.lastSeenChapter ∧
      (initEntry r x).supportingChapters = x.supportingChapters := by
    unfold initEntry
    split <;> exact ⟨ho, hc, hf, hl, hs⟩
  obtain ⟨eo, ec, ef, el, es⟩ := restEq
  refine ⟨?_, ?_, ?_, ?_, ?_, ?_, ?_, ?_, ?_, ?_⟩
  · simp [eo]
  · intro y hy
    rw [List.mem_singleton] at hy
    subst hy
    rw [ec]
  · simp [ec]
  · intro y hy a hfa
    rw [List.mem_singleton] at hy
    subst hy
    exact ⟨a, ef.trans hfa, le_refl a⟩
  · simp [ef]
  · intro y hy a hla
    rw [List.mem_singleton] at hy
    subst hy
    exact ⟨a, el.trans hla, le_refl a⟩
  · simp [el]
  · intro n
    rw [es]
    simp
  · intro y hy hren
    rw [List.mem_singleton] at hy
    subst hy
    have haset : (initEntry r y).aliases.getD [] =
        pySortedSetStr (entryAliasSet r y) := by
      unfold initEntry
      split
      · rename_i hemp
        rw [entryAliasSet, if_pos hren] at hemp
        simp at hemp
      · rfl
    rw [haset]
    constructor
    · rw [mem_pySortedSetStr, entryAliasSet, if_pos hren]
      simp
    · rw [mem_pySortedSetStr, entryAliasSet, if_pos hren]
      simp
  · refine ⟨x, List.mem_singleton_self x, ?_⟩
    unfold initEntry
    split <;> exact renamedEntity_name r x

/-- Folding one more entity into an entry extends the spec. -/
theorem foldEntry_spec (r : EntityOverrideRules) (fl : List StoryEntity)
    (acc : StoryEntity) (y : StoryEntity) (h : EntrySpec r fl acc) :
    EntrySpec r (fl ++ [y]) (foldEntry r acc y) := by
  obtain ⟨ho, hc, hf, hl, hs, ha⟩ := renamedEntity_rest r y
  refine ⟨?_, ?_, ?_, ?_, ?_, ?_, ?_, ?_, ?_, ?_⟩
  · show (mergeEntities acc (renamedEntity r y) (entryAliasSet r y)).occurrenceCount = _
    rw [mergeEntities]
    simp only [List.map_append, List.sum_append, List.map_cons, List.map_nil,
      List.sum_cons, List.sum_nil]
    rw [ho, h.occ_sum]
    omega
  · intro x hx
    have hconf : (foldEntry r acc y).confidence.getD 0 =
        max (acc.confidence.getD 0) (y.confidence.getD 0) := by
      show (mergeEntities acc (renamedEntity r y) (entryAliasSet r y)).confidence.getD 0 = _
      simp only [mergeEntities, hc, Option.getD_some]
    rw [hconf]
    rcases List.mem_append.1 hx with hx | hx
    · exact le_max_of_le_left (h.conf_le x hx)
    · rw [List.mem_singleton] at hx
      subst hx
      exact le_max_right _ _
  · have hconf : (foldEntry r acc y).confidence.getD 0 =
        max (acc.confidence.getD 0) (y.confidence.getD 0) := by
      show (mergeEntities acc (renamedEntity r y) (entryAliasSet r y)).confidence.getD 0 = _
      simp only [mergeEntities, hc, Option.getD_some]
    rw [hconf, List.map_append]
    rcases max_cases (acc.confidence.getD 0) (y.confidence.getD 0) with
      ⟨hm, _⟩ | ⟨hm, _⟩
    · rw [hm]
      exact List.mem_append_left _ h.conf_mem
    · rw [hm]
      simp
  · intro x hx a hxa
    have hfirst : (foldEntry r acc y).firstSeenChapter =
        spanMin y.firstSeenChapter acc.firstSeenChapter := by
      show (mergeEntities acc (renamedEntity r y) (entryAliasSet r y)).firstSeenChapter = _
      simp only [mergeEntities, hf]
    rw [hfirst]
    rcases List.mem_append.1 hx with hx | hx
    · rcases h.first_le x hx a hxa with ⟨b, hb, hba⟩
      rcases (spanMin_le y.firstSeenChapter acc.firstSeenChapter).2 b hb with ⟨d, hd, hdb⟩
      exact ⟨d, hd, le_trans hdb hba⟩
    · rw [List.mem_singleton] at hx
      subst hx
      exact (spanMin_le _ _).1 a hxa
  · have hfirst : (foldEntry r acc y).firstSeenChapter =
        spanMin y.firstSeenChapter acc.firstSeenChapter := by
      show (mergeEntities acc (renamedEntity r y) (entryAliasSet r y)).firstSeenChapter = _
      simp only [mergeEntities, hf]
    rw [List.map_append, hfirst]
    rcases spanMin_eq_or y.firstSeenChapter acc.firstSeenChapter with hm | hm
    · rw [hm]
      exact List.mem_append_right _ (by simp)
    · rw [hm]
      exact List.mem_append_left _ h.first_mem
  · intro x hx a hxa
    have hlast : (foldEntry r acc y).lastSeenChapter =
        spanMax y.lastSeenChapter acc.lastSeenChapter := by
      show (mergeEntities acc (renamedEntity r y) (entryAliasSet r y)).lastSeenChapter = _
      simp only [mergeEntities, hl]
    rw [hlast]
    rcases List.mem_append.1 hx with hx | hx
    · rcases h.last_le x hx a hxa with ⟨b, hb, hba⟩
      rcases (spanMax_le y.lastSeenChapter acc.lastSeenChapter).2 b hb with ⟨d, hd, hdb⟩
      exact ⟨d, hd, le_trans hba hdb⟩
    · rw [List.mem_singleton] at hx
      subst hx
      exact (spanMax_le _ _).1 a hxa
  · have hlast : (foldEntry r acc y).lastSeenChapter =
        spanMax y.lastSeenChapter acc.lastSeenChapter := by
      show (mergeEntities acc (renamedEntity r y) (entryAliasSet r y)).lastSeenChapter = _
      simp only [mergeEntities, hl]
    rw [List.map_append, hlast]
    rcases spanMax_eq_or y.lastSeenChapter acc.lastSeenChapter with hm | hm
    · rw [hm]
      exact List.mem_append_right _ (by simp)
    · rw [hm]
      exact List.mem_append_left _ h.last_mem
  · intro n
    have hsup : (foldEntry r acc y).supportingChapters =
        if (pySortedSetNat (acc.supportingChapters ++ y.supportingChapters)).isEmpty
        then acc.supportingChapters
        else pySortedSetNat (acc.supportingChapters ++ y.supportingChapters) := by
      show (mergeEntities acc (renamedEntity r y) (entryAliasSet r y)).supportingChapters = _
      simp only [mergeEntities, hs]
    rw [hsup]
    by_cases he : (pySortedSetNat (acc.supportingChapters ++ y.supportingChapters)).isEmpty
    · rw [if_pos he]
      rw [List.isEmpty_iff] at he
      have hnone : ∀ m : Nat, ¬ (m ∈ acc.supportingChapters ∨ m ∈ y.supportingChapters) := by
        intro m hm
        have : m ∈ pySortedSetNat (acc.supportingChapters ++ y.supportingChapters) := by
          rw [mem_pySortedSetNat, List.mem_append]
          exact hm
        rw [he] at this
        cases this
      constructor
      · intro hn
        exact absurd (Or.inl hn) (hnone n)
      · intro ⟨x, hx, hnx⟩
        rcases List.mem_append.1 hx with hx | hx
        · exact ((h.supp_iff n).2 ⟨x, hx, hnx⟩)
        · rw [List.mem_singleton] at hx
          subst hx
          exact absurd (Or.inr hnx) (hnone n)
    · rw [if_neg he, mem_pySortedSetNat, List.mem_append]
      constructor
      · intro hn
        rcases hn with hn | hn
        · rcases (h.supp_iff n).1 hn with ⟨x, hx, hnx⟩
          exact ⟨x, List.mem_append_left _ hx, hnx⟩
        · exact ⟨y, List.mem_append_right _ (List.mem_singleton_self y), hn⟩
      · intro ⟨x, hx, hnx⟩
        rcases List.mem_append.1 hx with hx | hx
        · exact Or.inl ((h.supp_iff n).2 ⟨x, hx, hnx⟩)
        · rw [List.mem_singleton] at hx
          subst hx
          exact Or.inr hnx
  · intro x hx hren
    have hali : (foldEntry r acc y).aliases =
        if (acc.aliases.getD [] ++ entryAliasSet r y).isEmpty then acc.aliases
        else some (pySortedSetStr (acc.aliases.getD [] ++ entryAliasSet r y)) := by
      show (mergeEntities acc (renamedEntity r y) (entryAliasSet r y)).aliases = _
      simp only [mergeEntities, ha]
    rcases List.mem_append.1 hx with hx | hx
    · rcases h.alias_mem x hx hren with ⟨h1, h2⟩
      rw [hali]
      by_cases hemp : (acc.aliases.getD [] ++ entryAliasSet r y).isEmpty
      · rw [List.isEmpty_iff, List.append_eq_nil] at hemp
        rw [hemp.1] at h1
        cases h1
      · rw [if_neg hemp]
        constructor
        · show x.name ∈ (some (pySortedSetStr _)).getD []
          rw [Option.getD_some, mem_pySortedSetStr]
          exact List.mem_append_left _ h1
        · show targetOf r x ∈ (some (pySortedSetStr _)).getD []
          rw [Option.getD_some, mem_pySortedSetStr]
          exact List.mem_append_left _ h2
    · rw [List.mem_singleton] at hx
      subst hx
      have hyset : x.name ∈ entryAliasSet r x ∧ targetOf r x ∈ entryAliasSet r x := by
        rw [entryAliasSet, if_pos hren]
        constructor <;> simp
      have hemp : ¬ (acc.aliases.getD [] ++ entryAliasSet r x).isEmpty := by
        rw [List.isEmpty_iff, List.append_eq_nil]
        intro ⟨_, h2⟩
        rw [h2] at hyset
        exact absurd hyset.1 (List.not_mem_nil _)
      rw [hali, if_neg hemp]
      constructor
      · show x.name ∈ (some (pySortedSetStr _)).getD []
        rw [Option.getD_some, mem_pySortedSetStr]
        exact List.mem_append_right _ hyset.1
      · show targetOf r x ∈ (some (pySortedSetStr _)).getD []
        rw [Option.getD_some, mem_pySortedSetStr]
        exact List.mem_append_right _ hyset.2
  · rcases h.name_src with ⟨x, hx, hname⟩
    refine ⟨x, List.mem_append_left _ hx, ?_⟩
    show (mergeEntities acc (renamedEntity r y) (entryAliasSet r y)).name = _
    simp only [mergeEntities]
    exact hname

/-- Folding a list of further entities preserves and extends the
entry spec. -/
theorem entryFold_spec (r : EntityOverrideRules) :
    ∀ (xs fl : List StoryEntity) (acc : StoryEntity), EntrySpec r fl acc →
      EntrySpec r (fl ++ xs) (xs.foldl (foldEntry r) acc) := by
  intro xs
  induction xs with
  | nil => intro fl acc h; simpa using h
  | cons y ys ih =>
    intro fl acc h
    have h2 := ih (fl ++ [y]) _ (foldEntry_spec r fl acc y h)
    rw [List.append_assoc] at h2
    exact h2

/-- The aggregate stored for a nonempty folding list satisfies the
entry spec. -/
theorem entryFor_spec (r : EntityOverrideRules) (folded : List StoryEntity)
    (ent : StoryEntity) (h : entryFor r folded = some ent) :
    EntrySpec r folded ent := by
  cases folded with
  | nil => cases h
  | cons x xs =>
    rw [entryFor, Option.some.injEq] at h
    rw [← h]
    exact entryFold_spec r xs [x] (initEntry r x) (initEntry_spec r x)

/-- First-match lookup in the ordered aggregation dictionary. -/
def alistFind (acc : List (String × StoryEntity)) (k : String) :
    Option StoryEntity :=
  (acc.find? (fun p => p.1 == k)).map (fun p => p.2)

/-- Lookup steps over a cons cell. -/
theorem alistFind_cons (p : String × StoryEntity)
    (ps : List (String × StoryEntity)) (k : String) :
    alistFind (p :: ps) k = if p.1 = k then some p.2 else alistFind ps k := by
  by_cases h : p.1 = k
  · simp [alistFind, List.find?_cons, h]
  · simp [alistFind, List.find?_cons, h]

/-- Lookup after the in-place dictionary update of the merge branch. -/
theorem alistFind_mapUpdate (key : String) (f : StoryEntity → StoryEntity) :
    ∀ (acc : List (String × StoryEntity)) (k : String),
      alistFind (acc.map (fun q => if q.1 == key then (q.1, f q.2) else q)) k =
        if k = key then (alistFind acc k).map f else alistFind acc k := by
  intro acc
  induction acc with
  | nil => intro k; by_cases h : k = key <;> simp [alistFind, h]
  | cons p ps ih =>
    intro k
    rw [List.map_cons]
    by_cases hpk : p.1 = key
    · have hhead : (if (p.1 == key) = true then (p.1, f p.2) else p) = (p.1, f p.2) := by
        simp [hpk]
      rw [hhead, alistFind_cons, alistFind_cons]
      by_cases hk : k = key
      · have hp1k : p.1 = k := by rw [hpk, hk]
        rw [if_pos hp1k, if_pos hp1k, if_pos hk]
        rfl
      · have hp1k : ¬ p.1 = k := by rw [hpk]; exact fun he => hk he.symm
        rw [if_neg hp1k, if_neg hp1k, ih k, if_neg hk]
    · have hhead : (if (p.1 == key) = true then (p.1, f p.2) else p) = p := by
        simp [hpk]
      rw [hhead, alistFind_cons, alistFind_cons]
      by_cases hp1k : p.1 = k
      · have hk : ¬ k = key := by rw [← hp1k]; exact fun he => hpk he
        rw [if_pos hp1k, if_pos hp1k, if_neg hk]
      · rw [if_neg hp1k, if_neg hp1k, ih k]

/-- Lookup after appending a fresh key. -/
theorem alistFind_append_single (key : String) (v : StoryEntity) :
    ∀ (acc : List (String × StoryEntity)) (k : String),
      alistFind (acc ++ [(key, v)]) k =
        match alistFind acc k with
        | some w => some w
        | none => if key = k then some v else none := by
  intro acc
  induction acc with
  | nil =>
    intro k
    rw [List.nil_append, alistFind_cons]
    by_cases h : key = k <;> simp [alistFind, h]
  | cons p ps ih =>
    intro k
    rw [List.cons_append, alistFind_cons, alistFind_cons]
    by_cases h : p.1 = k
    · rw [if_pos h, if_pos h]
    · rw [if_neg h, if_neg h, ih k]

/-- With distinct keys, a stored pair is what lookup returns. -/
theorem alistFind_of_mem_nodup :
    ∀ (acc : List (String × StoryEntity)) (p : String × StoryEntity),
      (acc.map (fun q => q.1)).Nodup → p ∈ acc → alistFind acc p.1 = some p.2 := by
  intro acc
  induction acc with
  | nil => intro p _ hp; cases hp
  | cons q qs ih =>
    intro p hnd hp
    rw [List.map_cons, List.nodup_cons] at hnd
    rw [alistFind_cons]
    rcases List.mem_cons.1 hp with hp | hp
    · subst hp
      rw [if_pos rfl]
    · have hq : ¬ q.1 = p.1 := by
        intro he
        exact hnd.1 (he ▸ List.mem_map_of_mem (fun x => x.1) hp)
      rw [if_neg hq]
      exact ih p hnd.2 hp

/-- The merge step never changes the aggregated entry's name. -/
theorem foldEntry_name (r : EntityOverrideRules) (a y : StoryEntity) :
    (foldEntry r a y).name = a.name := by
  simp [foldEntry, mergeEntities]

/-- The fresh entry's name is the merge target. -/
theorem initEntry_name (r : EntityOverrideRules) (e : StoryEntity) :
    (initEntry r e).name = (renamedEntity r e).name := by
  unfold initEntry
  split <;> rfl

/-- No entry aggregates from an empty folding list. -/
theorem entryFor_eq_none (r : EntityOverrideRules) (l : List StoryEntity) :
    entryFor r l = none ↔ l = [] := by
  cases l with
  | nil => simp [entryFor]
  | cons x xs => simp [entryFor]

/-- Invariant of the aggregation loop: the dictionary holds, for every
canonical key, exactly the aggregate of the already-processed entities
folding into that key; keys are distinct; and every entry is stored
under its lowercased name. -/
def AggInv (r : EntityOverrideRules) (processed : List StoryEntity)
    (acc : List (String × StoryEntity)) : Prop :=
  (∀ k, alistFind acc k = entryFor r (foldedEntities r processed k)) ∧
  (acc.map (fun p => p.1)).Nodup ∧
  (∀ p ∈ acc, p.1 = toLowerStr p.2.name)

/-- Appending one entity extends the folding lists pointwise. -/
theorem foldedEntities_append (r : EntityOverrideRules)
    (processed : List StoryEntity) (e : StoryEntity) (k : String) :
    foldedEntities r (processed ++ [e]) k =
      foldedEntities r processed k ++ (if foldsInto r k e then [e] else []) := by
  rw [foldedEntities, foldedEntities, List.filter_append]
  congr 1
  by_cases hf : foldsInto r k e
  · simp [hf]
  · simp [hf]

/-- For a non-suppressed entity, the keys it folds into are exactly its
lowercased merge target. -/
theorem foldsInto_iff (r : EntityOverrideRules) (e : StoryEntity)
    (hsup : ¬ r.suppress.contains e.name) (k : String) :
    foldsInto r k e ↔ k = toLowerStr (renamedEntity r e).name := by
  rw [foldsInto, renamedEntity_name, targetOf]
  simp only [Bool.and_eq_true, Bool.not_eq_true']
  constructor
  · intro ⟨_, h2⟩
    exact (beq_iff_eq.mp h2).symm
  · intro h
    refine ⟨by simpa using hsup, ?_⟩
    exact beq_iff_eq.mpr h.symm

/-- The aggregation invariant is preserved by each loop iteration. -/
theorem aggInv_step (r : EntityOverrideRules) (processed : List StoryEntity)
    (acc : List (String × StoryEntity)) (e : StoryEntity)
    (h : AggInv r processed acc) :
    AggInv r (processed ++ [e]) (applyOverridesStep r acc e) := by
  obtain ⟨hfind, hnd, hkeys⟩ := h
  by_cases hsup : r.suppress.contains e.name
  · rw [applyOverridesStep, if_pos hsup]
    refine ⟨?_, hnd, hkeys⟩
    intro k
    rw [hfind k, foldedEntities_append]
    have hni : foldsInto r k e = false := by
      rw [foldsInto, hsup]
      rfl
    rw [hni]
    simp
  · rw [applyOverridesStep, if_neg hsup]
    have hfold : ∀ k, foldedEntities r (processed ++ [e]) k =
        foldedEntities r processed k ++
          (if k = toLowerStr (renamedEntity r e).name then [e] else []) := by
      intro k
      rw [foldedEntities_append]
      congr 1
      by_cases hk : k = toLowerStr (renamedEntity r e).name
      · rw [if_pos hk, if_pos ((foldsInto_iff r e hsup k).2 hk)]
      · rw [if_neg hk, if_neg (fun hf => hk ((foldsInto_iff r e hsup k).1 hf))]
    cases hacc : acc.find? (fun p => p.1 == toLowerStr (renamedEntity r e).name) with
    | some p0 =>
      simp only [hacc]
      have hsome : alistFind acc (toLowerStr (renamedEntity r e).name) = some p0.2 := by
        rw [alistFind, hacc]
        rfl
      refine ⟨?_, ?_, ?_⟩
      · intro k
        rw [alistFind_mapUpdate (toLowerStr (renamedEntity r e).name)
          (fun v => foldEntry r v e) acc k, hfold k]
        by_cases hk : k = toLowerStr (renamedEntity r e).name
        · rw [if_pos hk, if_pos hk, hfind k, hk]
          have hent : entryFor r
              (foldedEntities r processed (toLowerStr (renamedEntity r e).name)) =
              some p0.2 := by
            rw [← hfind]
            exact hsome
          cases hfl : foldedEntities r processed (toLowerStr (renamedEntity r e).name) with
          | nil => rw [hfl] at hent; cases hent
          | cons x xs =>
            rw [hfl] at hent
            rw [entryFor, Option.some.injEq] at hent
            rw [entryFor, List.cons_append, entryFor]
            simp only [Option.map, List.foldl_append, List.foldl_cons,
              List.foldl_nil, hent]
        · rw [if_neg hk, if_neg hk, hfind k]
          simp
      · have hfst : (acc.map (fun q =>
            if q.1 == toLowerStr (renamedEntity r e).name
            then (q.1, foldEntry r q.2 e) else q)).map (fun p => p.1) =
            acc.map (fun p => p.1) := by
          rw [List.map_map]
          refine List.map_congr_left ?_
          intro q _
          show (if (q.1 == toLowerStr (renamedEntity r e).name) = true
              then (q.1, foldEntry r q.2 e) else q).1 = q.1
          split <;> rfl
        rw [hfst]
        exact hnd
      · intro p hp
        rcases List.mem_map.1 hp with ⟨q, hq, hqe⟩
        by_cases hqk : q.1 == toLowerStr (renamedEntity r e).name
        · rw [if_pos hqk] at hqe
          rw [← hqe]
          show q.1 = toLowerStr (foldEntry r q.2 e).name
          rw [foldEntry_name]
          exact hkeys q hq
        · rw [if_neg hqk] at hqe
          rw [← hqe]
          exact hkeys q hq
    | none =>
      simp only [hacc]
      have hnone : alistFind acc (toLowerStr (renamedEntity r e).name) = none := by
        rw [alistFind, hacc]
        rfl
      have hfl : foldedEntities r processed (toLowerStr (renamedEntity r e).name) = [] := by
        rw [← entryFor_eq_none r, ← hfind]
        exact hnone
      refine ⟨?_, ?_, ?_⟩
      · intro k
        rw [alistFind_append_single, hfold k]
        by_cases hk : k = toLowerStr (renamedEntity r e).name
        · subst hk
          rw [hnone, hfl]
          simp [entryFor]
        · rw [hfind k]
          have hife : (if k = toLowerStr (renamedEntity r e).name
              then [e] else []) = [] := by rw [if_neg hk]
          rw [hife, List.append_nil]
          cases hef : entryFor r (foldedEntities r processed k) with
          | some w => rfl
          | none =>
            show (if toLowerStr (renamedEntity r e).name = k
                then some (initEntry r e) else none) = none
            rw [if_neg (fun he => hk he.symm)]
      · rw [List.map_append]
        rw [List.nodup_append]
        refine ⟨hnd, List.nodup_singleton _, ?_⟩
        intro a ha hb
        rw [List.map_cons, List.map_nil, List.mem_singleton] at hb
        subst hb
        rcases List.mem_map.1 ha with ⟨q, hq, hqe⟩
        have := List.find?_eq_none.1 hacc q hq
        simp only [beq_iff_eq] at this
        exact this hqe
      · intro p hp
        rcases List.mem_append.1 hp with hp | hp
        · exact hkeys p hp
        · rw [List.mem_singleton] at hp
          subst hp
          show toLowerStr (renamedEntity r e).name = toLowerStr (initEntry r e).name
          rw [initEntry_name]

/-- The aggregation invariant holds after the whole loop. -/
theorem aggInv_fold (r : EntityOverrideRules) :
    ∀ (es processed : List StoryEntity) (acc : List (String × StoryEntity)),
      AggInv r processed acc →
      AggInv r (processed ++ es) (es.foldl (applyOverridesStep r) acc) := by
  intro es
  induction es with
  | nil => intro processed acc h; simpa using h
  | cons e rest ih =>
    intro processed acc h
    have h2 := ih (processed ++ [e]) _ (aggInv_step r processed acc e h)
    rw [List.append_assoc] at h2
    exact h2

/-- The invariant instance for the full input list. -/
theorem aggInv_main (r : EntityOverrideRules) (entities : List StoryEntity) :
    AggInv r entities (entities.foldl (applyOverridesStep r) []) := by
  have h0 : AggInv r [] [] := by
    refine ⟨fun k => rfl, List.nodup_nil, ?_⟩
    intro p hp
    cases hp
  have := aggInv_fold r entities [] [] h0
  rwa [List.nil_append] at this

/-- C3: override application aggregates correctly.  For every rule set,
input entity list and canonical (lowercased) name `k`: an output entity
with canonical name `k` exists iff some non-suppressed input folds into
`k`; at most one output entity carries canonical name `k`; and every
such output entity satisfies `EntrySpec`: its `occurrence_count` is the
sum over all folding inputs (including a pre-existing entity of that
name, so merging A→C and B→C yields a single C counting A+B+C), its
confidence is the maximum of the (`None`-as-0) confidences, its
`[first_seen_chapter, last_seen_chapter]` is the union span, its
supporting-chapter set is the union, and each renamed input contributes
its original and target names to the alias set. -/
theorem c3_override_merge_aggregation (r : EntityOverrideRules)
    (entities : List StoryEntity) (k : String) :
    ((∃ e ∈ apply_overrides_to_entities entities (some r), toLowerStr e.name = k) ↔
      foldedEntities r entities k ≠ []) ∧
    ((apply_overrides_to_entities entities (some r)).filter
      (fun e => toLowerStr e.name == k)).length ≤ 1 ∧
    (∀ e ∈ apply_overrides_to_entities entities (some r), toLowerStr e.name = k →
      EntrySpec r (foldedEntities r entities k) e) := by
  obtain ⟨hfind, hnd, hkeys⟩ := aggInv_main r entities
  have hperm : (apply_overrides_to_entities entities (some r)).Perm
      ((entities.foldl (applyOverridesStep r) []).map (fun p => p.2)) :=
    pySorted_perm _ _
  have hmemiff : ∀ e, e ∈ apply_overrides_to_entities entities (some r) →
      toLowerStr e.name = k →
      alistFind (entities.foldl (applyOverridesStep r) []) k = some e := by
    intro e he hk
    rcases List.mem_map.1 (hperm.mem_iff.1 he) with ⟨p, hp, hpe⟩
    have hp1 : p.1 = k := by rw [hkeys p hp, hpe, hk]
    have hfd := alistFind_of_mem_nodup _ p hnd hp
    rw [hp1, hpe] at hfd
    exact hfd
  refine ⟨⟨?_, ?_⟩, ?_, ?_⟩
  · intro ⟨e, he, hk⟩
    have hfd := hmemiff e he hk
    rw [hfind k] at hfd
    intro hnil
    rw [hnil] at hfd
    cases hfd
  · intro hne
    cases hef : entryFor r (foldedEntities r entities k) with
    | none => exact absurd ((entryFor_eq_none r _).1 hef) hne
    | some v =>
      have hv : alistFind (entities.foldl (applyOverridesStep r) []) k = some v := by
        rw [hfind k, hef]
      rw [alistFind] at hv
      cases hfq : (entities.foldl (applyOverridesStep r) []).find?
          (fun p => p.1 == k) with
      | none => rw [hfq] at hv; cases hv
      | some p =>
        rw [hfq] at hv
        have hpv : p.2 = v := by simpa using hv
        have hpacc := List.mem_of_find?_eq_some hfq
        have hkeyb := List.find?_some hfq
        have hkey : p.1 = k := beq_iff_eq.mp hkeyb
        refine ⟨v, ?_, ?_⟩
        · rw [← hpv]
          exact hperm.mem_iff.2 (List.mem_map_of_mem _ hpacc)
        · rw [← hpv, ← hkey]
          exact (hkeys p hpacc).symm
  · have h1 : ((apply_overrides_to_entities entities (some r)).filter
        (fun e => toLowerStr e.name == k)).length =
        (((entities.foldl (applyOverridesStep r) []).map (fun p => p.2)).filter
          (fun e => toLowerStr e.name == k)).length :=
      (hperm.filter _).length_eq
    rw [h1, ← List.countP_eq_length_filter, List.countP_map]
    have h2 : List.countP
        ((fun e => toLowerStr e.name == k) ∘ (fun p => p.2))
        (entities.foldl (applyOverridesStep r) []) =
        List.countP (fun p => p.1 == k)
          (entities.foldl (applyOverridesStep r) []) := by
      refine List.countP_congr ?_
      intro p hp
      simp only [Function.comp]
      rw [← hkeys p hp]
    have h3 : List.countP (fun p => p.1 == k)
        (entities.foldl (applyOverridesStep r) []) =
        List.countP ((fun s => s == k) ∘ (fun p : String × StoryEntity => p.1))
          (entities.foldl (applyOverridesStep r) []) := rfl
    rw [h2, h3, ← List.countP_map]
    exact List.nodup_iff_count_le_one.1 hnd k
  · intro e he hk
    have hfd := hmemiff e he hk
    rw [hfind k] at hfd
    exact entryFor_spec r _ e hfd

/-- Witness rules for C3: merge "Voss" and "Bob" into "Captain Voss". -/
def c3Rules : EntityOverrideRules :=
  { suppress := [],
    merges := [("Voss", "Captain Voss"), ("Bob", "Captain Voss")] }

/-- One bare witness entity. -/
def c3Ent (name : String) (occ : Nat) : StoryEntity :=
  { storyId := 1, name := name, entityType := "character", aliases := none,
    confidence := none, firstSeenChapter := none, lastSeenChapter := none,
    occurrenceCount := occ, supportingChapters := [] }

/-- Witness entities for C3: A=Voss (3), B=Bob (2) and a pre-existing
Captain Voss (1). -/
def c3Ents : List StoryEntity :=
  [c3Ent "Voss" 3, c3Ent "Bob" 2, c3Ent "Captain Voss" 1]

/-- C3 (witness): merging A→C and B→C with a pre-existing C yields one
entity with canonical name "captain voss" whose count is 3+2+1. -/
theorem c3_override_merge_aggregation_witness :
    ∃ e ∈ apply_overrides_to_entities c3Ents (some c3Rules),
      toLowerStr e.name = "captain voss" ∧ e.occurrenceCount = 6 := by
  have h := c3_override_merge_aggregation c3Rules c3Ents "captain voss"
  obtain ⟨e, he, hk⟩ := h.1.2 (by decide)
  refine ⟨e, he, hk, ?_⟩
  rw [(h.2.2 e he hk).occ_sum]
  decide

/-- Python `str.title()` (ASCII): uppercase every letter that follows a
non-letter, lowercase the other letters. -/
def pyTitleAux : Bool → List Char → List Char
  | _, [] => []
  | prevCased, c :: rest =>
    if c.isAlpha then
      (if prevCased then c.toLower else c.toUpper) :: pyTitleAux true rest
    else c :: pyTitleAux false rest

/-- Python `str.title()` on a string. -/
def pyTitle (s : String) : String :=
  String.mk (pyTitleAux false s.toList)

/-- A `StoryTheme` row as read by the universe graph builder. -/
structure StoryTheme where
  storyId : Nat
  name : String
  weight : ℚ
  confidence : ℚ
  source : String
  deriving Repr, DecidableEq

/-- The payload of one universe edge: shared entity names, shared
(re-title-cased) theme names and the similarity weight. -/
structure EdgeData where
  shared_entities : List String
  shared_themes : List String
  weight : ℚ
  deriving Repr, DecidableEq

/-- First-match dictionary lookup keyed by story id. -/
def dictFind (A : List (Nat × β)) (k : Nat) : Option β :=
  (A.find? (fun p => p.1 == k)).map (fun p => p.2)

/-- `entity_map.get(story_id, [])` / `defaultdict` read. -/
def mapGet (A : List (Nat × List β)) (k : Nat) : List β :=
  (dictFind A k).getD []

/-- Python dict assignment `A[k] = v`: replace in place when the key
exists, append otherwise. -/
def dictSet (A : List (Nat × β)) (k : Nat) (v : β) : List (Nat × β) :=
  if A.any (fun p => p.1 == k) then
    A.map (fun p => if p.1 == k then (k, v) else p)
  else A ++ [(k, v)]

/-- All unordered pairs of a list in order (`itertools.combinations(l, 2)`). -/
def pairsOf : List Nat → List (Nat × Nat)
  | [] => []
  | x :: xs => xs.map (fun y => (x, y)) ++ pairsOf xs

/-- The per-pair edge computation of `_build_edges`: shared entity
names, shared lowercased theme names (re-title-cased for display), and
`weight = |shared_entities| * 1.0 + |shared_themes| * 0.5`; pairs below
`min_weight` produce no edge. -/
def edgeFor (minWeight : ℚ) (em : List (Nat × List StoryEntity))
    (tm : List (Nat × List StoryTheme)) (pr : Nat × Nat) : Option EdgeData :=
  let leftEntities := (mapGet em pr.1).map (fun e => e.name)
  let rightEntities := (mapGet em pr.2).map (fun e => e.name)
  let sharedEntities := pySortedSetStr
    (leftEntities.filter (fun n => n ∈ rightEntities))
  let leftThemes := (mapGet tm pr.1).map (fun t => toLowerStr t.name)
  let rightThemes := (mapGet tm pr.2).map (fun t => toLowerStr t.name)
  let sharedThemes := pySortedSetStr
    ((leftThemes.filter (fun n => n ∈ rightThemes)).map pyTitle)
  let weight := (sharedEntities.length : ℚ) * 1 + (sharedThemes.length : ℚ) * (1 / 2)
  if weight < minWeight then none
  else some { shared_entities := sharedEntities, shared_themes := sharedThemes,
              weight := weight }

/-- `UniverseGraphService._build_edges`: iterate the sorted story ids'
unordered pairs and keep the qualifying edges, keyed by the ordered
pair.  Story ids are sorted by a fixed total order (in the source, the
string form of the UUID; here the numeric id stands in for it). -/
def build_edges (minWeight : ℚ) (em : List (Nat × List StoryEntity))
    (tm : List (Nat × List StoryTheme)) : List ((Nat × Nat) × EdgeData) :=
  (pairsOf (pySortedSetNat (em.map (fun p => p.1) ++ tm.map (fun p => p.1)))).filterMap
    (fun pr => (edgeFor minWeight em tm pr).map (fun d => (pr, d)))

/-- First-match lookup of an edge by its ordered key. -/
def edgesFind (edges : List ((Nat × Nat) × EdgeData)) (pr : Nat × Nat) :
    Option EdgeData :=
  (edges.find? (fun q => q.1 == pr)).map (fun q => q.2)

/-- The adjacency structure: a dictionary from story id to its
neighbour dictionary (`defaultdict(dict)`). -/
abbrev Adj := List (Nat × List (Nat × ℚ))

/-- The neighbour dictionary of a node (empty for an absent key, as
with `defaultdict`). -/
def adjGet (A : Adj) (x : Nat) : List (Nat × ℚ) :=
  (dictFind A x).getD []

/-- `adjacency[x][y] = w`. -/
def adjSet (A : Adj) (x y : Nat) (w : ℚ) : Adj :=
  dictSet A x (dictSet (adjGet A x) y w)

/-- The stored weight of the directed cell `(x, y)`, if any. -/
def adjLookup (A : Adj) (x y : Nat) : Option ℚ :=
  dictFind (adjGet A x) y

/-- The neighbour ids of a node. -/
def nbrs (A : Adj) (x : Nat) : List Nat :=
  (adjGet A x).map (fun p => p.1)

/-- `UniverseGraphService._build_adjacency`: write both directions of
every edge. -/
def build_adjacency (edges : List ((Nat × Nat) × EdgeData)) : Adj :=
  edges.foldl
    (fun A pr => adjSet (adjSet A pr.1.1 pr.1.2 pr.2.weight)
      pr.1.2 pr.1.1 pr.2.weight) []

/-- `adjacency.setdefault(story_id, {})` over all story ids (performed
by `_persist_clusters` so isolated stories are represented). -/
def withAllStories (A : Adj) (ids : List Nat) : Adj :=
  ids.foldl (fun B i => if B.any (fun p => p.1 == i) then B else B ++ [(i, [])]) A

/-- Filtering by non-membership in a grown seen set keeps at most the
previous survivors. -/
theorem filter_notmem_cons_sublist (keys seen : List Nat) (c : Nat) :
    List.Sublist (keys.filter (fun k => ¬ k ∈ c :: seen))
      (keys.filter (fun k => ¬ k ∈ seen)) := by
  apply List.monotone_filter_right
  intro k hk
  simp only [decide_eq_true_eq, List.mem_cons, not_or] at hk ⊢
  exact hk.2

/-- Marking an unseen key shrinks the unseen-key count strictly. -/
theorem filter_notmem_cons_length_lt (keys seen : List Nat) (c : Nat)
    (hc : c ∈ keys) (hcs : c ∉ seen) :
    (keys.filter (fun k => ¬ k ∈ c :: seen)).length <
      (keys.filter (fun k => ¬ k ∈ seen)).length := by
  induction keys with
  | nil => cases hc
  | cons k ks ih =>
    by_cases hkc : k = c
    · subst hkc
      rw [List.filter_cons, List.filter_cons]
      have h1 : (decide (¬ k ∈ k :: seen)) = false := decide_eq_false (by simp)
      have h2 : (decide (¬ k ∈ seen)) = true := decide_eq_true hcs
      rw [h1, h2]
      simp only [if_false, if_true, List.length_cons]
      exact Nat.lt_succ_of_le (filter_notmem_cons_sublist ks seen k).length_le
    · rcases List.mem_cons.1 hc with hc1 | hc1
      · exact absurd hc1.symm hkc
      · rw [List.filter_cons, List.filter_cons]
        have hsame : (decide (¬ k ∈ c :: seen)) = (decide (¬ k ∈ seen)) := by
          simp only [decide_eq_decide, List.mem_cons, not_or]
          constructor
          · intro h
            exact h.2
          · intro h
            exact ⟨hkc, h⟩
        rw [hsame]
        cases hd : decide (¬ k ∈ seen)
        · simpa using ih hc1
        · simpa using Nat.succ_lt_succ (ih hc1)

/-- Marking a non-key leaves the unseen-key filter unchanged. -/
theorem filter_notmem_cons_eq (keys seen : List Nat) (c : Nat)
    (hc : c ∉ keys) :
    keys.filter (fun k => ¬ k ∈ c :: seen) =
      keys.filter (fun k => ¬ k ∈ seen) := by
  apply List.filter_congr
  intro k hk
  have hkc : k ≠ c := fun he => hc (he ▸ hk)
  simp only [decide_eq_decide, List.mem_cons, not_or]
  constructor
  · intro h
    exact h.2
  · intro h
    exact ⟨hkc, h⟩

/-- A node that is not a dictionary key has no neighbours
(`defaultdict` read of a missing key). -/
theorem nbrs_of_not_key (A : Adj) (c : Nat)
    (hc : c ∉ A.map (fun p => p.1)) : nbrs A c = [] := by
  rw [nbrs, adjGet, dictFind]
  cases hf : A.find? (fun p => p.1 == c) with
  | none => rfl
  | some p =>
    exfalso
    have hmem := List.mem_of_find?_eq_some hf
    have hpred := List.find?_some hf
    have : p.1 = c := beq_iff_eq.mp hpred
    exact hc (this ▸ List.mem_map_of_mem (fun p => p.1) hmem)

/-- The explicit-stack depth-first traversal of
`_connected_components`: pop, skip already-seen nodes, otherwise mark
the node seen, add it to the component and push its unseen neighbours.
The stack top is the list head (Python pops from the end of its list;
pushes are reversed accordingly, preserving the traversal order). -/
def dfsLoop (A : Adj) (stack seen comp : List Nat) : List Nat × List Nat :=
  match stack with
  | [] => (seen, comp)
  | current :: rest =>
    if current ∈ seen then dfsLoop A rest seen comp
    else
      dfsLoop A
        ((((nbrs A current).filter (fun n => ¬ n ∈ current :: seen)).reverse) ++ rest)
        (current :: seen) (current :: comp)
  termination_by
    (((A.map (fun p => p.1)).filter (fun k => ¬ k ∈ seen)).length, stack.length)
  decreasing_by
  · apply Prod.Lex.right
    simp
  · rename_i hseen
    by_cases hk : x ∈ A.map (fun p => p.1)
    · exact Prod.Lex.left _ _
        (filter_notmem_cons_length_lt (A.map (fun p => p.1)) seen x hk hseen)
    · rw [filter_notmem_cons_eq (A.map (fun p => p.1)) seen x hk]
      apply Prod.Lex.right
      rw [nbrs_of_not_key A x hk]
      simp

/-- The outer loop of `_connected_components`: iterate the adjacency
keys in dictionary order, starting a traversal at each unseen node and
yielding the nonempty components. -/
def ccGo (A : Adj) : List Nat → List Nat → List (List Nat)
  | [], _ => []
  | node :: rest, seen =>
    if node ∈ seen then ccGo A rest seen
    else
      (if (dfsLoop A [node] seen []).2 ≠ [] then [(dfsLoop A [node] seen []).2]
        else []) ++ ccGo A rest (dfsLoop A [node] seen []).1

/-- `UniverseGraphService._connected_components`. -/
def connectedComponents (A : Adj) : List (List Nat) :=
  ccGo A (A.map (fun p => p.1)) []

/-- Dictionary lookup steps over a cons cell. -/
theorem dictFind_cons (p : Nat × β) (ps : List (Nat × β)) (k : Nat) :
    dictFind (p :: ps) k = if p.1 = k then some p.2 else dictFind ps k := by
  by_cases h : p.1 = k
  · simp [dictFind, List.find?_cons, h]
  · simp [dictFind, List.find?_cons, h]

/-- Lookup in the in-place-replaced dictionary. -/
theorem dictFind_mapSet (k : Nat) (v : β) :
    ∀ (A : List (Nat × β)) (x : Nat),
      dictFind (A.map (fun p => if p.1 == k then (k, v) else p)) x =
        if x = k then (dictFind A k).map (fun _ => v) else dictFind A x := by
  intro A
  induction A with
  | nil => intro x; by_cases h : x = k <;> simp [dictFind, h]
  | cons p ps ih =>
    intro x
    rw [List.map_cons]
    by_cases hpk : p.1 = k
    · have hhead : (if (p.1 == k) = true then (k, v) else p) = (k, v) := by
        simp [hpk]
      rw [hhead]
      by_cases hxk : x = k
      · subst hxk
        simp [dictFind_cons, hpk]
      · simp only [dictFind_cons]
        have hkx : ¬ (k, v).1 = x := fun he => hxk he.symm
        rw [if_neg hkx, if_neg hxk, ih x, if_neg hxk]
        have hpx : ¬ p.1 = x := fun he => hxk (by rw [← he, hpk])
        rw [if_neg hpx]
    · have hhead : (if (p.1 == k) = true then (k, v) else p) = p := by
        simp [hpk]
      rw [hhead]
      simp only [dictFind_cons]
      by_cases hpx : p.1 = x
      · have hxk : ¬ x = k := fun he => hpk (by rw [hpx, he])
        rw [if_pos hpx, if_neg hxk, if_pos hpx]
      · rw [if_neg hpx, ih x]
        by_cases hxk : x = k
        · rw [if_pos hxk, if_pos hxk, if_neg hpk]
        · rw [if_neg hxk, if_neg hxk, if_neg hpx]

/-- Lookup after appending a fresh binding. -/
theorem dictFind_append_one (k : Nat) (v : β) :
    ∀ (A : List (Nat × β)) (x : Nat),
      dictFind (A ++ [(k, v)]) x =
        match dictFind A x with
        | some w => some w
        | none => if k = x then some v else none := by
  intro A
  induction A with
  | nil =>
    intro x
    rw [List.nil_append, dictFind_cons]
    by_cases h : k = x <;> simp [dictFind, h]
  | cons p ps ih =>
    intro x
    rw [List.cons_append, dictFind_cons, dictFind_cons]
    by_cases h : p.1 = x
    · rw [if_pos h, if_pos h]
    · rw [if_neg h, if_neg h, ih x]

/-- A lookup misses exactly when `find?` does. -/
theorem dictFind_eq_none_iff (A : List (Nat × β)) (k : Nat) :
    dictFind A k = none ↔ A.find? (fun p => p.1 == k) = none := by
  rw [dictFind]
  cases A.find? (fun p => p.1 == k) <;> simp

/-- Lookup after a Python dict assignment. -/
theorem dictFind_dictSet (k : Nat) (v : β) (A : List (Nat × β)) (x : Nat) :
    dictFind (dictSet A k v) x = if x = k then some v else dictFind A x := by
  rw [dictSet]
  by_cases hany : A.any (fun p => p.1 == k)
  · rw [if_pos hany, dictFind_mapSet]
    by_cases hxk : x = k
    · rw [if_pos hxk, if_pos hxk]
      rcases List.any_eq_true.1 hany with ⟨p, hp, hpk⟩
      cases hd : dictFind A k with
      | none =>
        exfalso
        have hfn := (dictFind_eq_none_iff A k).1 hd
        have hnp := List.find?_eq_none.1 hfn p hp
        exact hnp hpk
      | some w => rfl
    · rw [if_neg hxk, if_neg hxk]
  · rw [if_neg hany, dictFind_append_one]
    by_cases hxk : x = k
    · rw [if_pos hxk]
      have hnone : dictFind A x = none := by
        rw [dictFind_eq_none_iff, List.find?_eq_none]
        intro q hq hqx
        apply hany
        have hqx2 : q.1 = x := beq_iff_eq.mp hqx
        exact List.any_eq_true.2 ⟨q, hq, beq_iff_eq.mpr (hqx2.trans hxk)⟩
      rw [hnone]
      show (if k = x then some v else none) = some v
      rw [if_pos hxk.symm]
    · rw [if_neg hxk]
      cases hd : dictFind A x with
      | some w => rfl
      | none =>
        show (if k = x then some v else none) = none
        rw [if_neg (fun he => hxk he.symm)]

/-- Lookup after an `adjacency[a][b] = w` write. -/
theorem adjLookup_adjSet (A : Adj) (a b : Nat) (w : ℚ) (x y : Nat) :
    adjLookup (adjSet A a b w) x y =
      if x = a ∧ y = b then some w else adjLookup A x y := by
  rw [adjLookup, adjSet, adjGet, dictFind_dictSet]
  by_cases hxa : x = a
  · subst hxa
    rw [if_pos rfl, Option.getD_some, dictFind_dictSet]
    by_cases hyb : y = b
    · rw [if_pos hyb, if_pos ⟨rfl, hyb⟩]
    · rw [if_neg hyb, if_neg (fun h => hyb h.2)]
      rfl
  · rw [if_neg hxa, if_neg (fun h => hxa h.1)]
    rfl

/-- The traversal on an empty stack returns its accumulators. -/
theorem dfsLoop_nil (A : Adj) (seen comp : List Nat) :
    dfsLoop A [] seen comp = (seen, comp) := by
  simp only [dfsLoop]

/-- Popping an already-seen node is a skip. -/
theorem dfsLoop_cons_seen (A : Adj) (c : Nat) (rest seen comp : List Nat)
    (h : c ∈ seen) :
    dfsLoop A (c :: rest) seen comp = dfsLoop A rest seen comp := by
  rw [dfsLoop]
  simp only [if_pos h]

/-- Popping a fresh node marks it, records it and pushes its unseen
neighbours. -/
theorem dfsLoop_cons_new (A : Adj) (c : Nat) (rest seen comp : List Nat)
    (h : c ∉ seen) :
    dfsLoop A (c :: rest) seen comp =
      dfsLoop A ((((nbrs A c).filter (fun n => ¬ n ∈ c :: seen)).reverse) ++ rest)
        (c :: seen) (c :: comp) := by
  rw [dfsLoop]
  simp only [if_neg h]

/-- Post-condition of the depth-first traversal: the new `seen` and
`component` lists extend the old ones by one common block `d` of fresh,
duplicate-free nodes; every stacked node ends up seen, and every
neighbour of a node of `d` ends up seen. -/
theorem dfsLoop_spec (A : Adj) (stack seen comp : List Nat) :
    ∃ d : List Nat,
      (dfsLoop A stack seen comp).1 = d ++ seen ∧
      (dfsLoop A stack seen comp).2 = d ++ comp ∧
      (∀ x ∈ d, x ∉ seen) ∧
      d.Nodup ∧
      (∀ y ∈ stack, y ∈ (dfsLoop A stack seen comp).1) ∧
      (∀ x ∈ d, ∀ y ∈ nbrs A x, y ∈ (dfsLoop A stack seen comp).1) := by
  induction stack, seen, comp using dfsLoop.induct A with
  | case1 seen comp =>
    refine ⟨[], ?_, ?_, ?_, ?_, ?_, ?_⟩ <;> simp [dfsLoop_nil]
  | case2 seen comp c rest hseen ih =>
    rw [dfsLoop_cons_seen A c rest seen comp hseen]
    obtain ⟨d, h1, h2, h3, h4, h5, h6⟩ := ih
    refine ⟨d, h1, h2, h3, h4, ?_, h6⟩
    intro y hy
    rcases List.mem_cons.1 hy with hy1 | hy1
    · subst hy1
      rw [h1]
      exact List.mem_append_right d hseen
    · exact h5 y hy1
  | case3 seen comp c rest hseen ih =>
    rw [dfsLoop_cons_new A c rest seen comp hseen]
    obtain ⟨d, h1, h2, h3, h4, h5, h6⟩ := ih
    refine ⟨d ++ [c], ?_, ?_, ?_, ?_, ?_, ?_⟩
    · rw [h1, List.append_assoc, List.singleton_append]
    · rw [h2, List.append_assoc, List.singleton_append]
    · intro x hx
      rcases List.mem_append.1 hx with hx1 | hx1
      · intro hxs
        exact h3 x hx1 (List.mem_cons_of_mem c hxs)
      · rw [List.mem_singleton.1 hx1]
        exact hseen
    · rw [List.nodup_append]
      refine ⟨h4, List.nodup_singleton c, ?_⟩
      intro x hx hxc
      rw [List.mem_singleton.1 hxc] at hx
      exact h3 c hx (List.mem_cons_self c seen)
    · intro y hy
      rcases List.mem_cons.1 hy with hy1 | hy1
      · subst hy1
        rw [h1]
        exact List.mem_append_right d (List.mem_cons_self y seen)
      · exact h5 y (List.mem_append_right _ hy1)
    · intro x hx y hyn
      rcases List.mem_append.1 hx with hx1 | hx1
      · exact h6 x hx1 y hyn
      · rw [List.mem_singleton.1 hx1] at hyn
        by_cases hys : y ∈ c :: seen
        · rw [h1]
          exact List.mem_append_right d hys
        · apply h5 y
          apply List.mem_append_left
          rw [List.mem_reverse]
          exact List.mem_filter.2 ⟨hyn, by simpa using hys⟩

/-- Neighbour symmetry of an adjacency structure. -/
def NbrSym (A : Adj) : Prop := ∀ x y : Nat, y ∈ nbrs A x → x ∈ nbrs A y

/-- Unfolding of the outer loop on a cons cell. -/
theorem ccGo_cons (A : Adj) (node : Nat) (rest seen : List Nat) :
    ccGo A (node :: rest) seen =
      if node ∈ seen then ccGo A rest seen
      else
        (if (dfsLoop A [node] seen []).2 ≠ [] then [(dfsLoop A [node] seen []).2]
          else []) ++ ccGo A rest (dfsLoop A [node] seen []).1 := by
  rw [ccGo]

/-- Invariant of the outer component loop: assuming the adjacency is
neighbour-symmetric and the already-seen set is closed under
neighbours, every emitted component is nonempty, disjoint from the
seen set and closed under neighbours; the components are pairwise
disjoint; and every visited node is either already seen or covered by
some component. -/
theorem ccGo_spec (A : Adj) (hsym : NbrSym A) :
    ∀ (nodes seen : List Nat),
      (∀ x ∈ seen, ∀ y ∈ nbrs A x, y ∈ seen) →
      (∀ C ∈ ccGo A nodes seen,
        (∀ x ∈ C, ∀ y ∈ nbrs A x, y ∈ C) ∧ (∀ x ∈ C, x ∉ seen) ∧ C ≠ []) ∧
      List.Pairwise (fun C D => ∀ x ∈ C, x ∉ D) (ccGo A nodes seen) ∧
      (∀ n ∈ nodes, n ∈ seen ∨ ∃ C ∈ ccGo A nodes seen, n ∈ C) := by
  intro nodes
  induction nodes with
  | nil =>
    intro seen hclosed
    refine ⟨?_, ?_, ?_⟩ <;> simp [ccGo]
  | cons node rest ih =>
    intro seen hclosed
    rw [ccGo_cons]
    by_cases hns : node ∈ seen
    · rw [if_pos hns]
      obtain ⟨P1, P2, P3⟩ := ih seen hclosed
      refine ⟨P1, P2, ?_⟩
      intro n hn
      rcases List.mem_cons.1 hn with hn1 | hn1
      · exact Or.inl (hn1 ▸ hns)
      · exact P3 n hn1
    · rw [if_neg hns]
      obtain ⟨d, h1, h2, h3, h4, h5, h6⟩ := dfsLoop_spec A [node] seen []
      have hd2 : (dfsLoop A [node] seen []).2 = d := by
        rw [h2, List.append_nil]
      have hnode_d : node ∈ d := by
        have hm := h5 node (List.mem_singleton_self node)
        rw [h1] at hm
        rcases List.mem_append.1 hm with hm1 | hm1
        · exact hm1
        · exact absurd hm1 hns
      have hdne : d ≠ [] := fun he => by rw [he] at hnode_d; cases hnode_d
      rw [hd2, if_pos hdne]
      have hclosed1 : ∀ x ∈ (dfsLoop A [node] seen []).1,
          ∀ y ∈ nbrs A x, y ∈ (dfsLoop A [node] seen []).1 := by
        intro x hx y hy
        rw [h1] at hx ⊢
        rcases List.mem_append.1 hx with hx1 | hx1
        · have hy1 := h6 x hx1 y hy
          rw [h1] at hy1
          exact hy1
        · exact List.mem_append_right d (hclosed x hx1 y hy)
      obtain ⟨P1, P2, P3⟩ := ih (dfsLoop A [node] seen []).1 hclosed1
      have hdclosed : ∀ x ∈ d, ∀ y ∈ nbrs A x, y ∈ d := by
        intro x hx y hy
        have hy1 := h6 x hx y hy
        rw [h1] at hy1
        rcases List.mem_append.1 hy1 with hy2 | hy2
        · exact hy2
        · exfalso
          exact h3 x hx (hclosed y hy2 x (hsym x y hy))
      rw [List.singleton_append]
      refine ⟨?_, ?_, ?_⟩
      · intro C hC
        rcases List.mem_cons.1 hC with hC1 | hC1
        · subst hC1
          exact ⟨hdclosed, h3, hdne⟩
        · obtain ⟨q1, q2, q3⟩ := P1 C hC1
          refine ⟨q1, ?_, q3⟩
          intro x hx hxs
          apply q2 x hx
          rw [h1]
          exact List.mem_append_right d hxs
      · apply List.Pairwise.cons
        · intro D hD x hxd hxD
          have hx1 : x ∈ (dfsLoop A [node] seen []).1 := by
            rw [h1]
            exact List.mem_append_left seen hxd
          exact (P1 D hD).2.1 x hxD hx1
        · exact P2
      · intro n hn
        rcases List.mem_cons.1 hn with hn1 | hn1
        · subst hn1
          exact Or.inr ⟨d, List.mem_cons_self d _, hnode_d⟩
        · rcases P3 n hn1 with hn2 | hn2
          · rw [h1] at hn2
            rcases List.mem_append.1 hn2 with hn3 | hn3
            · exact Or.inr ⟨d, List.mem_cons_self d _, hn3⟩
            · exact Or.inl hn3
          · obtain ⟨C, hC, hnC⟩ := hn2
            exact Or.inr ⟨C, List.mem_cons_of_mem d hC, hnC⟩

/-- A lookup hits exactly on the stored keys. -/
theorem dictFind_isSome_iff (L : List (Nat × β)) (k : Nat) :
    (dictFind L k).isSome = true ↔ k ∈ L.map (fun p => p.1) := by
  constructor
  · intro h
    rw [dictFind] at h
    cases hf : L.find? (fun p => p.1 == k) with
    | none =>
      rw [hf] at h
      simp at h
    | some p =>
      have hp := List.mem_of_find?_eq_some hf
      have hb := List.find?_some hf
      have hpk : p.1 = k := beq_iff_eq.mp hb
      exact hpk ▸ List.mem_map_of_mem (fun p => p.1) hp
  · intro hk
    rcases List.mem_map.1 hk with ⟨p, hp, hpk⟩
    rw [dictFind]
    cases hf : L.find? (fun q => q.1 == k) with
    | some q => rfl
    | none =>
      exfalso
      have hnp := List.find?_eq_none.1 hf p hp
      exact hnp (beq_iff_eq.mpr hpk)

/-- Neighbour membership coincides with a defined directed cell. -/
theorem mem_nbrs_iff (A : Adj) (x y : Nat) :
    y ∈ nbrs A x ↔ (adjLookup A x y).isSome = true := by
  rw [nbrs, adjLookup]
  exact (dictFind_isSome_iff (adjGet A x) y).symm

/-- A defined directed cell forces its source to be a stored key. -/
theorem adjLookup_isSome_mem_keys (A : Adj) (x y : Nat)
    (h : (adjLookup A x y).isSome = true) : x ∈ A.map (fun p => p.1) := by
  rw [← dictFind_isSome_iff A x]
  rw [adjLookup, adjGet] at h
  cases hf : dictFind A x with
  | some L => rfl
  | none =>
    rw [hf] at h
    simp [dictFind] at h

/-- A found edge is a member of the edge list. -/
theorem edgesFind_eq_some (edges : List ((Nat × Nat) × EdgeData))
    (pr : Nat × Nat) (d : EdgeData) (h : edgesFind edges pr = some d) :
    (pr, d) ∈ edges := by
  rw [edgesFind] at h
  rcases Option.map_eq_some'.1 h with ⟨q, hq, hqd⟩
  have hqm := List.mem_of_find?_eq_some hq
  have hb := List.find?_some hq
  have hq1 : q.1 = pr := beq_iff_eq.mp hb
  have hqe : q = (pr, d) := Prod.ext hq1 hqd
  exact hqe ▸ hqm

/-- Generic insertion keeps a pairwise order given a totality witness
for the comparison. -/
theorem insertSorted_pairwise (le : α → α → Bool) (R : α → α → Prop)
    (hRle : ∀ a b, le a b = true → R a b)
    (hRnle : ∀ a b, le a b = false → R b a)
    (htrans : ∀ a b c, R a b → R b c → R a c) (x : α) :
    ∀ l : List α, List.Pairwise R l →
      List.Pairwise R (insertSorted le x l) := by
  intro l
  induction l with
  | nil =>
    intro _
    simp [insertSorted]
  | cons y ys ih =>
    intro hp
    obtain ⟨hy, hys⟩ := List.pairwise_cons.1 hp
    rw [insertSorted]
    cases hle : le x y with
    | true =>
      rw [if_pos rfl]
      apply List.Pairwise.cons
      · intro b hb
        rcases List.mem_cons.1 hb with hb1 | hb1
        · exact hb1 ▸ hRle x y hle
        · exact htrans x y b (hRle x y hle) (hy b hb1)
      · exact hp
    | false =>
      rw [if_neg Bool.false_ne_true]
      apply List.Pairwise.cons
      · intro b hb
        have hmem := (insertSorted_perm le x ys).mem_iff.1 hb
        rcases List.mem_cons.1 hmem with hb1 | hb1
        · exact hb1 ▸ hRnle x y hle
        · exact hy b hb1
      · exact ih hys

/-- The insertion sort orders its output pairwise. -/
theorem pySorted_pairwise (le : α → α → Bool) (R : α → α → Prop)
    (hRle : ∀ a b, le a b = true → R a b)
    (hRnle : ∀ a b, le a b = false → R b a)
    (htrans : ∀ a b c, R a b → R b c → R a c) :
    ∀ l : List α, List.Pairwise R (pySorted le l) := by
  intro l
  induction l with
  | nil => simp [pySorted]
  | cons x xs ih =>
    rw [pySorted]
    exact insertSorted_pairwise le R hRle hRnle htrans x _ ih

/-- `sorted(set(...))` on numbers is strictly increasing. -/
theorem pySortedSetNat_lt (l : List Nat) :
    List.Pairwise (· < ·) (pySortedSetNat l) := by
  have hle : List.Pairwise (· ≤ ·) (pySortedSetNat l) :=
    pySorted_pairwise (fun a b => decide (a ≤ b)) (· ≤ ·)
      (fun a b h => of_decide_eq_true h)
      (fun a b h => le_of_not_le (of_decide_eq_false h))
      (fun a b c h1 h2 => le_trans h1 h2) l.dedup
  have hnd : (pySortedSetNat l).Nodup := by
    rw [pySortedSetNat]
    exact ((pySorted_perm (fun a b => decide (a ≤ b)) l.dedup).nodup_iff).2
      (List.nodup_dedup l)
  exact (hle.and hnd).imp (fun h => lt_of_le_of_ne h.1 h.2)

/-- Pairs produced by `itertools.combinations(l, 2)` on an increasing
list are strictly increasing. -/
theorem pairsOf_lt : ∀ l : List Nat, List.Pairwise (· < ·) l →
    ∀ pr ∈ pairsOf l, pr.1 < pr.2 := by
  intro l
  induction l with
  | nil =>
    intro _ pr hpr
    cases hpr
  | cons x xs ih =>
    intro hp pr hpr
    rw [pairsOf] at hpr
    rcases List.mem_append.1 hpr with h | h
    · rcases List.mem_map.1 h with ⟨y, hy, hpy⟩
      rw [← hpy]
      exact (List.pairwise_cons.1 hp).1 y hy
    · exact ih (List.pairwise_cons.1 hp).2 pr h

/-- The first component of a produced pair is an element of the list. -/
theorem pairsOf_fst_mem : ∀ (l : List Nat) (pr : Nat × Nat),
    pr ∈ pairsOf l → pr.1 ∈ l := by
  intro l
  induction l with
  | nil =>
    intro pr hpr
    cases hpr
  | cons x xs ih =>
    intro pr hpr
    rw [pairsOf] at hpr
    rcases List.mem_append.1 hpr with h | h
    · rcases List.mem_map.1 h with ⟨y, hy, hpy⟩
      rw [← hpy]
      exact List.mem_cons_self x xs
    · exact List.mem_cons_of_mem x (ih pr h)

/-- The pair list of an increasing list has no duplicates. -/
theorem pairsOf_nodup : ∀ l : List Nat, List.Pairwise (· < ·) l →
    (pairsOf l).Nodup := by
  intro l
  induction l with
  | nil =>
    intro _
    simp [pairsOf]
  | cons x xs ih =>
    intro hl
    obtain ⟨hx, hxs⟩ := List.pairwise_cons.1 hl
    rw [pairsOf]
    apply List.Nodup.append
    · apply List.Nodup.map
      · exact fun a b hab => congrArg Prod.snd hab
      · exact hxs.imp (fun h => ne_of_lt h)
    · exact ih hxs
    · intro p hp hp2
      rcases List.mem_map.1 hp with ⟨y, hy, hpy⟩
      have h1 : p.1 = x := by rw [← hpy]
      have h2 : x < p.1 := hx p.1 (pairsOf_fst_mem xs p hp2)
      rw [h1] at h2
      exact lt_irrefl x h2

/-- The keys of a keyed `filterMap` form a subsequence of the scanned
pair list. -/
theorem filterMap_keys_sublist (g : Nat × Nat → Option EdgeData) :
    ∀ l : List (Nat × Nat),
      List.Sublist
        ((l.filterMap (fun pr => (g pr).map (fun d => (pr, d)))).map (fun q => q.1))
        l := by
  intro l
  induction l with
  | nil => simp
  | cons pr l ih =>
    cases hg : g pr with
    | none =>
      rw [List.filterMap_cons, hg]
      exact List.Sublist.cons pr ih
    | some d =>
      rw [List.filterMap_cons, hg]
      exact List.Sublist.cons₂ pr ih

/-- Decomposition of a built edge: its key is a produced pair and its
payload comes from `edgeFor`. -/
theorem build_edges_mem (minW : ℚ) (em : List (Nat × List StoryEntity))
    (tm : List (Nat × List StoryTheme)) (q : (Nat × Nat) × EdgeData)
    (hq : q ∈ build_edges minW em tm) :
    q.1 ∈ pairsOf (pySortedSetNat (em.map (fun p => p.1) ++ tm.map (fun p => p.1))) ∧
      edgeFor minW em tm q.1 = some q.2 := by
  rw [build_edges] at hq
  rcases List.mem_filterMap.1 hq with ⟨pr, hpr, hf⟩
  rcases Option.map_eq_some'.1 hf with ⟨d, hd, hq2⟩
  subst hq2
  exact ⟨hpr, hd⟩

/-- Every built edge key is strictly ordered. -/
theorem build_edges_ordered (minW : ℚ) (em : List (Nat × List StoryEntity))
    (tm : List (Nat × List StoryTheme)) :
    ∀ q ∈ build_edges minW em tm, q.1.1 < q.1.2 := by
  intro q hq
  obtain ⟨hpr, _⟩ := build_edges_mem minW em tm q hq
  exact pairsOf_lt _ (pySortedSetNat_lt _) q.1 hpr

/-- Edge keys are pairwise distinct. -/
theorem build_edges_keys_nodup (minW : ℚ) (em : List (Nat × List StoryEntity))
    (tm : List (Nat × List StoryTheme)) :
    ((build_edges minW em tm).map (fun q => q.1)).Nodup := by
  have hnd := pairsOf_nodup _ (pySortedSetNat_lt
    (em.map (fun p => p.1) ++ tm.map (fun p => p.1)))
  exact hnd.sublist (filterMap_keys_sublist (edgeFor minW em tm) _)

/-- Folding further edge writes leaves untouched cells unchanged. -/
theorem build_adjacency_go_preserve (x y : Nat) :
    ∀ (es : List ((Nat × Nat) × EdgeData)) (A : Adj),
      (∀ pr ∈ es, ¬(pr.1.1 = x ∧ pr.1.2 = y) ∧ ¬(pr.1.2 = x ∧ pr.1.1 = y)) →
      adjLookup (es.foldl (fun B pr =>
        adjSet (adjSet B pr.1.1 pr.1.2 pr.2.weight) pr.1.2 pr.1.1 pr.2.weight) A) x y
        = adjLookup A x y := by
  intro es
  induction es with
  | nil =>
    intro A _
    rfl
  | cons e es ih =>
    intro A h
    rw [List.foldl_cons]
    rw [ih _ (fun pr hpr => h pr (List.mem_cons_of_mem e hpr))]
    rw [adjLookup_adjSet, adjLookup_adjSet]
    obtain ⟨h1, h2⟩ := h e (List.mem_cons_self e es)
    rw [if_neg (fun hc => h2 ⟨hc.1.symm, hc.2.symm⟩),
      if_neg (fun hc => h1 ⟨hc.1.symm, hc.2.symm⟩)]

/-- After building the adjacency from an ordered, duplicate-free edge
list, each edge is stored in both directions with its weight. -/
theorem build_adjacency_value (X Y : Nat) (d : EdgeData) :
    ∀ (es : List ((Nat × Nat) × EdgeData)) (A : Adj),
      ((X, Y), d) ∈ es →
      (∀ pr ∈ es, pr.1.1 < pr.1.2) →
      (es.map (fun q => q.1)).Nodup →
      adjLookup (es.foldl (fun B pr =>
        adjSet (adjSet B pr.1.1 pr.1.2 pr.2.weight) pr.1.2 pr.1.1 pr.2.weight) A) X Y
        = some d.weight ∧
      adjLookup (es.foldl (fun B pr =>
        adjSet (adjSet B pr.1.1 pr.1.2 pr.2.weight) pr.1.2 pr.1.1 pr.2.weight) A) Y X
        = some d.weight := by
  intro es
  induction es with
  | nil =>
    intro A hmem _ _
    cases hmem
  | cons e es ih =>
    intro A hmem hord hnd
    have hXY : X < Y := hord ((X, Y), d) hmem
    have hXneY : X ≠ Y := ne_of_lt hXY
    rw [List.foldl_cons]
    rw [List.map_cons] at hnd
    have hnd1 := (List.nodup_cons.1 hnd).1
    have hnd2 := (List.nodup_cons.1 hnd).2
    rcases List.mem_cons.1 hmem with he | he
    · have he2 := he.symm
      subst he2
      have hcond1 : ∀ pr ∈ es, ¬(pr.1.1 = X ∧ pr.1.2 = Y) ∧
          ¬(pr.1.2 = X ∧ pr.1.1 = Y) := by
        intro pr hpr
        constructor
        · rintro ⟨ha, hb⟩
          have hmm : pr.1 ∈ List.map (fun q => q.1) es :=
            List.mem_map_of_mem (fun q => q.1) hpr
          have hpq : pr.1 = (X, Y) := by
            apply Prod.ext
            · exact ha
            · exact hb
          rw [hpq] at hmm
          exact hnd1 hmm
        · rintro ⟨ha, hb⟩
          have hlt := hord pr (List.mem_cons_of_mem _ hpr)
          rw [ha, hb] at hlt
          exact lt_asymm hXY hlt
      have hcond2 : ∀ pr ∈ es, ¬(pr.1.1 = Y ∧ pr.1.2 = X) ∧
          ¬(pr.1.2 = Y ∧ pr.1.1 = X) := by
        intro pr hpr
        constructor
        · rintro ⟨ha, hb⟩
          have hlt := hord pr (List.mem_cons_of_mem _ hpr)
          rw [ha, hb] at hlt
          exact lt_asymm hXY hlt
        · rintro ⟨ha, hb⟩
          have hmm : pr.1 ∈ List.map (fun q => q.1) es :=
            List.mem_map_of_mem (fun q => q.1) hpr
          have hpq : pr.1 = (X, Y) := by
            apply Prod.ext
            · exact hb
            · exact ha
          rw [hpq] at hmm
          exact hnd1 hmm
      constructor
      · rw [build_adjacency_go_preserve X Y es _ hcond1]
        show adjLookup (adjSet (adjSet A X Y d.weight) Y X d.weight) X Y
          = some d.weight
        rw [adjLookup_adjSet, adjLookup_adjSet]
        rw [if_neg (fun hc => hXneY hc.1), if_pos ⟨rfl, rfl⟩]
      · rw [build_adjacency_go_preserve Y X es _ hcond2]
        show adjLookup (adjSet (adjSet A X Y d.weight) Y X d.weight) Y X
          = some d.weight
        rw [adjLookup_adjSet]
        rw [if_pos ⟨rfl, rfl⟩]
    · exact ih _ he (fun pr hpr => hord pr (List.mem_cons_of_mem _ hpr)) hnd2

/-- Writing both directions of every edge keeps the defined cells
symmetric. -/
theorem build_adjacency_go_symm :
    ∀ (es : List ((Nat × Nat) × EdgeData)) (A : Adj),
      (∀ x y, (adjLookup A x y).isSome = (adjLookup A y x).isSome) →
      ∀ x y,
        (adjLookup (es.foldl (fun B pr =>
          adjSet (adjSet B pr.1.1 pr.1.2 pr.2.weight) pr.1.2 pr.1.1 pr.2.weight) A)
            x y).isSome
        = (adjLookup (es.foldl (fun B pr =>
          adjSet (adjSet B pr.1.1 pr.1.2 pr.2.weight) pr.1.2 pr.1.1 pr.2.weight) A)
            y x).isSome := by
  intro es
  induction es with
  | nil =>
    intro A h
    exact h
  | cons e es ih =>
    intro A h
    rw [List.foldl_cons]
    apply ih
    intro x y
    rw [adjLookup_adjSet, adjLookup_adjSet, adjLookup_adjSet, adjLookup_adjSet]
    by_cases hp : x = e.1.2 ∧ y = e.1.1
    · rw [if_pos hp]
      by_cases hc1 : y = e.1.2 ∧ x = e.1.1
      · rw [if_pos hc1]
      · rw [if_neg hc1, if_pos ⟨hp.2, hp.1⟩]
    · rw [if_neg hp]
      by_cases hq : x = e.1.1 ∧ y = e.1.2
      · rw [if_pos hq, if_pos ⟨hq.2, hq.1⟩]
      · rw [if_neg hq, if_neg (fun hc => hq ⟨hc.2, hc.1⟩),
          if_neg (fun hc => hp ⟨hc.2, hc.1⟩)]
        exact h x y

/-- Registering isolated stories never changes a stored cell. -/
theorem withAllStories_lookup (ids : List Nat) :
    ∀ (A : Adj) (x y : Nat),
      adjLookup (withAllStories A ids) x y = adjLookup A x y := by
  induction ids with
  | nil =>
    intro A x y
    rfl
  | cons i is ih =>
    intro A x y
    rw [withAllStories, List.foldl_cons]
    have h2 := ih (if A.any (fun p => p.1 == i) then A else A ++ [(i, [])]) x y
    rw [withAllStories] at h2
    rw [h2]
    by_cases hany : A.any (fun p => p.1 == i)
    · rw [if_pos hany]
    · rw [if_neg hany]
      rw [adjLookup, adjLookup, adjGet, adjGet, dictFind_append_one]
      cases hd : dictFind A x with
      | some L => rfl
      | none =>
        by_cases hix : i = x
        · rw [if_pos hix]
          rfl
        · rw [if_neg hix]

/-- Registering isolated stories only grows the key set. -/
theorem withAllStories_keys (ids : List Nat) :
    ∀ (A : Adj) (x : Nat), x ∈ A.map (fun p => p.1) →
      x ∈ (withAllStories A ids).map (fun p => p.1) := by
  induction ids with
  | nil =>
    intro A x h
    exact h
  | cons i is ih =>
    intro A x h
    rw [withAllStories, List.foldl_cons]
    have h3 : x ∈ (if A.any (fun p => p.1 == i) then A
        else A ++ [(i, [])]).map (fun p => p.1) := by
      by_cases hany : A.any (fun p => p.1 == i)
      · rw [if_pos hany]
        exact h
      · rw [if_neg hany, List.map_append]
        exact List.mem_append_left _ h
    have h4 := ih _ x h3
    rw [withAllStories] at h4
    exact h4

/-- The adjacency structure handed to the component search by
`_persist_clusters`: every edge written in both directions, then every
story id registered (`setdefault`). -/
def universeAdjacency (minW : ℚ) (em : List (Nat × List StoryEntity))
    (tm : List (Nat × List StoryTheme)) (allIds : List Nat) : Adj :=
  withAllStories (build_adjacency (build_edges minW em tm)) allIds

/-- C6: the universe graph is symmetric and clustering respects it:
whenever `_build_edges` assigns the pair `(X, Y)` an edge with weight
`w`, the adjacency built by `_build_adjacency` (and completed with
`setdefault` for all stories) stores `w` in both directed cells
`(X, Y)` and `(Y, X)`, the clusters yielded by
`_connected_components` are pairwise disjoint, and `X` and `Y` lie in
one common cluster. -/
theorem c6_universe_graph_symmetry
    (minW : ℚ) (em : List (Nat × List StoryEntity))
    (tm : List (Nat × List StoryTheme)) (allIds : List Nat)
    (X Y : Nat) (d : EdgeData)
    (hXY : edgesFind (build_edges minW em tm) (X, Y) = some d) :
    adjLookup (universeAdjacency minW em tm allIds) X Y = some d.weight ∧
    adjLookup (universeAdjacency minW em tm allIds) Y X = some d.weight ∧
    List.Pairwise (fun C D => ∀ x ∈ C, x ∉ D)
      (connectedComponents (universeAdjacency minW em tm allIds)) ∧
    ∃ C ∈ connectedComponents (universeAdjacency minW em tm allIds),
      X ∈ C ∧ Y ∈ C := by
  have hmem : ((X, Y), d) ∈ build_edges minW em tm :=
    edgesFind_eq_some (build_edges minW em tm) (X, Y) d hXY
  have hord := build_edges_ordered minW em tm
  have hnd := build_edges_keys_nodup minW em tm
  have hval := build_adjacency_value X Y d (build_edges minW em tm) [] hmem hord hnd
  have hlemX : adjLookup (universeAdjacency minW em tm allIds) X Y
      = some d.weight := by
    rw [universeAdjacency, withAllStories_lookup]
    exact hval.1
  have hlemY : adjLookup (universeAdjacency minW em tm allIds) Y X
      = some d.weight := by
    rw [universeAdjacency, withAllStories_lookup]
    exact hval.2
  have hsymA : ∀ x y,
      (adjLookup (universeAdjacency minW em tm allIds) x y).isSome
        = (adjLookup (universeAdjacency minW em tm allIds) y x).isSome := by
    intro x y
    rw [universeAdjacency, withAllStories_lookup, withAllStories_lookup]
    exact build_adjacency_go_symm (build_edges minW em tm) [] (fun a b => rfl) x y
  have hnbr : NbrSym (universeAdjacency minW em tm allIds) := by
    intro x y hy
    rw [mem_nbrs_iff] at hy ⊢
    rw [← hsymA x y]
    exact hy
  obtain ⟨P1, P2, P3⟩ := ccGo_spec (universeAdjacency minW em tm allIds) hnbr
    ((universeAdjacency minW em tm allIds).map (fun p => p.1)) []
    (fun x hx => absurd hx (List.not_mem_nil x))
  refine ⟨hlemX, hlemY, P2, ?_⟩
  have hXkeys : X ∈ (universeAdjacency minW em tm allIds).map (fun p => p.1) :=
    adjLookup_isSome_mem_keys _ X Y (by rw [hlemX]; rfl)
  rcases P3 X hXkeys with h0 | ⟨C, hC, hXC⟩
  · exact absurd h0 (List.not_mem_nil X)
  · refine ⟨C, hC, hXC, ?_⟩
    have hYn : Y ∈ nbrs (universeAdjacency minW em tm allIds) X := by
      rw [mem_nbrs_iff, hlemX]
      rfl
    exact (P1 C hC).1 X hXC Y hYn

/-- A story-1 entity named "A" for the C6 scenario. -/
def c6e1 : StoryEntity :=
  { storyId := 1, name := "A", entityType := "character", aliases := none,
    confidence := none, firstSeenChapter := none, lastSeenChapter := none,
    occurrenceCount := 1, supportingChapters := [] }

/-- The same entity name extracted in story 2. -/
def c6e2 : StoryEntity :=
  { c6e1 with storyId := 2 }

/-- Entity map of the C6 scenario: stories 1 and 2 share entity "A". -/
def c6Em : List (Nat × List StoryEntity) := [(1, [c6e1]), (2, [c6e2])]

/-- Empty theme map for the C6 scenario. -/
def c6Tm : List (Nat × List StoryTheme) := []

/-- The expected edge payload: one shared entity, weight 1. -/
def c6Edge : EdgeData :=
  { shared_entities := ["A"], shared_themes := [], weight := 1 }

/-- Concrete evaluation of `_build_edges` on the C6 scenario. -/
theorem c6_edges_eval :
    edgesFind (build_edges 0 c6Em c6Tm) (1, 2) = some c6Edge := by
  have hids : pySortedSetNat (c6Em.map (fun p => p.1) ++ c6Tm.map (fun p => p.1))
      = [1, 2] := by decide
  have hpairs : pairsOf [1, 2] = [(1, 2)] := by decide
  have hsh : pySortedSetStr (((mapGet c6Em 1).map (fun e => e.name)).filter
      (fun n => n ∈ (mapGet c6Em 2).map (fun e => e.name))) = ["A"] := by decide
  have hth : pySortedSetStr ((((mapGet c6Tm 1).map (fun t => toLowerStr t.name)).filter
      (fun n => n ∈ (mapGet c6Tm 2).map (fun t => toLowerStr t.name))).map pyTitle)
      = [] := by decide
  have hef : edgeFor 0 c6Em c6Tm (1, 2) = some c6Edge := by
    simp only [edgeFor]
    rw [hsh, hth]
    norm_num [c6Edge]
  rw [build_edges, hids, hpairs]
  rw [List.filterMap_cons, hef]
  show edgesFind [((1, 2), c6Edge)] (1, 2) = some c6Edge
  decide

/-- C6 (witness): stories 1 and 2 sharing entity "A" yield the edge
(1, 2) with weight 1, stored in both directions, and land in one
common cluster. -/
theorem c6_universe_graph_symmetry_witness :
    edgesFind (build_edges 0 c6Em c6Tm) (1, 2) = some c6Edge ∧
    adjLookup (universeAdjacency 0 c6Em c6Tm [1, 2]) 1 2 = some c6Edge.weight ∧
    adjLookup (universeAdjacency 0 c6Em c6Tm [1, 2]) 2 1 = some c6Edge.weight ∧
    ∃ C ∈ connectedComponents (universeAdjacency 0 c6Em c6Tm [1, 2]),
      1 ∈ C ∧ 2 ∈ C := by
  have h := c6_universe_graph_symmetry 0 c6Em c6Tm [1, 2] 1 2 c6Edge c6_edges_eval
  exact ⟨c6_edges_eval, h.1, h.2.1, h.2.2.2⟩

end Novellone
